import Mathlib

/-!
Verification of the rocket-telemetry ingestion engine.

The development shallowly embeds the inventory core of the service:
the per-channel sequencer `UpdateRocketState` (duplicate discard,
reorder buffering, in-order application, drain loop, single
transaction per call with rollback on error), the message handlers of
`rockets-inventory/messages.go` (Launched / SpeedIncreased /
SpeedDecreased / Exploded / MissionChanged), and the dispatch map of
`processMessage`.

The SQLite `rockets` table is modelled as an association list from
channel to row; an SQL `UPDATE ... WHERE channel = ?` is a map over
matching entries (a no-op when no row matches, as in SQLite), and the
`INSERT ... ON CONFLICT(channel) DO UPDATE` of the launched handler is
an upsert.  The in-memory reorder buffers (`messageBuffers`) are an
association list from channel to message list; Go's map assignment is
assoc-list store.  A message payload is modelled as the record of the
JSON fields the handlers decode, together with a well-formedness flag:
`json.Unmarshal` fails exactly on malformed payloads and otherwise
fills the fields the struct mentions.  Transactionality: database
writes inside one `UpdateRocketState` call take effect only if the
call commits; an error return rolls every database write of the call
back (`defer tx.Rollback()`), while buffer mutations are plain memory
writes and survive the rollback.

Locks serialize calls; the embedding treats `UpdateRocketState` as an
atomic step on the state, which is what the per-channel mutex
guarantees for a fixed channel.
-/

namespace RocketTelemetry

/-- `Metadata` of rockets-inventory/messages.go. -/
structure Metadata where
  channel : String
  messageNumber : Int
  messageTime : String
  messageType : String
deriving DecidableEq

/-- The JSON payload fields read by the five message structs
(`RocketLaunchedMessage`, `RocketSpeedChangedMessage`,
`RocketExplodedMessage`, `RocketMissionChangedMessage`), plus a flag
telling whether the raw bytes unmarshal at all. -/
structure JsonVal where
  wellFormed : Bool
  type_ : String
  launchSpeed : Int
  mission : String
  by_ : Int
  reason : String
  newMission : String
deriving DecidableEq

/-- `RocketMessage` of rockets-inventory/messages.go. -/
structure RocketMessage where
  metadata : Metadata
  message : JsonVal
deriving DecidableEq

/-- One row of the `rockets` table. -/
structure Rocket where
  type_ : String
  speed : Int
  mission : String
  status : String
  lastMessageNumber : Int
deriving DecidableEq

/-- The `rockets` table: channel is the primary key. -/
abbrev DB := List (String × Rocket)

/-- `SELECT ... FROM rockets WHERE channel = ?`. -/
def findRocket (db : DB) (channel : String) : Option Rocket :=
  (db.find? (fun p => p.1 = channel)).map (fun p => p.2)

/-- `UPDATE rockets SET ... WHERE channel = ?`: rewrites every row whose
channel matches, does nothing when none does. -/
def updateRocket (db : DB) (channel : String) (f : Rocket → Rocket) : DB :=
  db.map (fun p => if p.1 = channel then (p.1, f p.2) else p)

/-- `INSERT INTO rockets ... ON CONFLICT(channel) DO UPDATE SET ...`:
the launched handler sets every non-key column, so the conflict branch
replaces the row. -/
def upsertRocket (db : DB) (channel : String) (r : Rocket) : DB :=
  if (findRocket db channel).isSome then updateRocket db channel (fun _ => r)
  else db ++ [(channel, r)]

/-- `SELECT last_message_number FROM rockets WHERE channel = ?` scanned
into an `int`: `sql.ErrNoRows` leaves the zero value 0. -/
def lastMessageNumberOf (db : DB) (channel : String) : Int :=
  match findRocket db channel with
  | some r => r.lastMessageNumber
  | none => 0

/-- `RocketLaunchedHandler.Process`. -/
def rocketLaunchedProcess (db : DB) (channel : String) (messageNumber : Int)
    (message : JsonVal) : Except String DB :=
  if message.wellFormed then
    .ok (upsertRocket db channel
      { type_ := message.type_, speed := message.launchSpeed,
        mission := message.mission, status := "launched",
        lastMessageNumber := messageNumber })
  else .error "json: unmarshal failed"

/-- `RocketSpeedIncreasedHandler.Process`. -/
def rocketSpeedIncreasedProcess (db : DB) (channel : String) (messageNumber : Int)
    (message : JsonVal) : Except String DB :=
  if message.wellFormed then
    .ok (updateRocket db channel (fun r =>
      { r with speed := r.speed + message.by_, lastMessageNumber := messageNumber }))
  else .error "json: unmarshal failed"

/-- `RocketSpeedDecreasedHandler.Process`: the SQL
`CASE WHEN speed - ? < 0 THEN 0 ELSE speed - ? END`. -/
def rocketSpeedDecreasedProcess (db : DB) (channel : String) (messageNumber : Int)
    (message : JsonVal) : Except String DB :=
  if message.wellFormed then
    .ok (updateRocket db channel (fun r =>
      { r with speed := if r.speed - message.by_ < 0 then 0 else r.speed - message.by_,
               lastMessageNumber := messageNumber }))
  else .error "json: unmarshal failed"

/-- `RocketExplodedHandler.Process`. -/
def rocketExplodedProcess (db : DB) (channel : String) (messageNumber : Int)
    (message : JsonVal) : Except String DB :=
  if message.wellFormed then
    .ok (updateRocket db channel (fun r =>
      { r with status := "exploded", lastMessageNumber := messageNumber }))
  else .error "json: unmarshal failed"

/-- `RocketMissionChangedHandler.Process`. -/
def rocketMissionChangedProcess (db : DB) (channel : String) (messageNumber : Int)
    (message : JsonVal) : Except String DB :=
  if message.wellFormed then
    .ok (updateRocket db channel (fun r =>
      { r with mission := message.newMission, lastMessageNumber := messageNumber }))
  else .error "json: unmarshal failed"

/-- The keys of the `MessageHandlers` map. -/
def registeredKinds : List String :=
  ["RocketLaunched", "RocketSpeedIncreased", "RocketSpeedDecreased",
   "RocketExploded", "RocketMissionChanged"]

/-- `Inventory.processMessage`: look the type up in `MessageHandlers`
and run the handler against the open transaction. -/
def processMessage (db : DB) (msg : RocketMessage) : Except String DB :=
  match msg.metadata.messageType with
  | "RocketLaunched" =>
    rocketLaunchedProcess db msg.metadata.channel msg.metadata.messageNumber msg.message
  | "RocketSpeedIncreased" =>
    rocketSpeedIncreasedProcess db msg.metadata.channel msg.metadata.messageNumber msg.message
  | "RocketSpeedDecreased" =>
    rocketSpeedDecreasedProcess db msg.metadata.channel msg.metadata.messageNumber msg.message
  | "RocketExploded" =>
    rocketExplodedProcess db msg.metadata.channel msg.metadata.messageNumber msg.message
  | "RocketMissionChanged" =>
    rocketMissionChangedProcess db msg.metadata.channel msg.metadata.messageNumber msg.message
  | t => .error ("invalid message type: " ++ t)

/-- The `messageBuffers` map: channel to buffered messages. -/
abbrev Buffers := List (String × List RocketMessage)

/-- Read `messageBuffers[channel]` (nil slice when absent). -/
def getBuffer (bufs : Buffers) (channel : String) : List RocketMessage :=
  match bufs.find? (fun p => p.1 = channel) with
  | some p => p.2
  | none => []

/-- Go map assignment `messageBuffers[channel] = l`. -/
def setBuffer : Buffers → String → List RocketMessage → Buffers
  | [], c, l => [(c, l)]
  | p :: rest, c, l => if p.1 = c then (c, l) :: rest else p :: setBuffer rest c l

/-- Put `m` in front of the first element it is `≤`, by message number. -/
def insertByNumber (m : RocketMessage) : List RocketMessage → List RocketMessage
  | [] => [m]
  | x :: xs =>
    if m.metadata.messageNumber ≤ x.metadata.messageNumber then m :: x :: xs
    else x :: insertByNumber m xs

/-- The `sort.Slice` call on the buffer, keyed by message number.  The
comparison key is the message number alone, so on the duplicate-free
buffers the engine maintains any sorting algorithm produces this
list. -/
def sortByNumber : List RocketMessage → List RocketMessage
  | [] => []
  | x :: xs => insertByNumber x (sortByNumber xs)

/-- `Inventory.getNextMessage`. -/
def getNextMessage (bufs : Buffers) (channel : String) (messageNumber : Int) :
    Option RocketMessage :=
  (getBuffer bufs channel).find? (fun m => m.metadata.messageNumber = messageNumber)

/-- `Inventory.removeMessage`: keep every buffered message whose number
differs, and store the result back. -/
def removeMessage (bufs : Buffers) (channel : String) (messageNumber : Int) : Buffers :=
  setBuffer bufs channel
    ((getBuffer bufs channel).filter (fun m => m.metadata.messageNumber ≠ messageNumber))

theorem getBuffer_setBuffer (bufs : Buffers) (c : String) (l : List RocketMessage) :
    getBuffer (setBuffer bufs c l) c = l := by
  induction bufs with
  | nil => simp [setBuffer, getBuffer]
  | cons p rest ih =>
    by_cases h : p.1 = c
    · simp [setBuffer, getBuffer, h]
    · simp [setBuffer, getBuffer, h] at ih ⊢
      simpa [getBuffer] using ih

theorem getBuffer_setBuffer_ne (bufs : Buffers) (c c' : String) (l : List RocketMessage)
    (h : c' ≠ c) : getBuffer (setBuffer bufs c l) c' = getBuffer bufs c' := by
  induction bufs with
  | nil => simp [setBuffer, getBuffer, Ne.symm h]
  | cons p rest ih =>
    by_cases hp : p.1 = c
    · subst hp
      simp [setBuffer, getBuffer, Ne.symm h]
    · by_cases hp' : p.1 = c'
      · simp [setBuffer, getBuffer, hp, hp', h]
      · simp [setBuffer, getBuffer, hp, hp'] at ih ⊢
        simpa [getBuffer] using ih

theorem getBuffer_removeMessage (bufs : Buffers) (c : String) (n : Int) :
    getBuffer (removeMessage bufs c n) c =
      (getBuffer bufs c).filter (fun m => m.metadata.messageNumber ≠ n) := by
  unfold removeMessage
  exact getBuffer_setBuffer ..

theorem getBuffer_removeMessage_ne (bufs : Buffers) (c c' : String) (n : Int)
    (h : c' ≠ c) : getBuffer (removeMessage bufs c n) c' = getBuffer bufs c' := by
  unfold removeMessage
  exact getBuffer_setBuffer_ne _ _ _ _ h

theorem length_getBuffer_removeMessage_lt (bufs : Buffers) (c : String) (n : Int)
    (m : RocketMessage) (hm : getNextMessage bufs c n = some m) :
    (getBuffer (removeMessage bufs c m.metadata.messageNumber) c).length <
      (getBuffer bufs c).length := by
  rw [getBuffer_removeMessage]
  refine List.length_filter_lt_length_iff_exists.mpr ?_
  refine ⟨m, List.mem_of_find?_eq_some hm, ?_⟩
  simp

/-- The drain loop of `UpdateRocketState` (the `for` at the bottom):
repeatedly look the next in-sequence message up in the buffer, remove
it, and apply it inside the same transaction, threading the running
`lastMessageNumber`.  Returns the transaction's database, the buffers
(mutated in place, outside the transaction), and the error, if any.
Every iteration removes one buffered message, so the loop terminates;
the recursion is fueled to keep it structural, and the caller supplies
one unit of fuel more than the channel's buffer holds, which
`drainLoop_fuel` shows is never exhausted. -/
def drainLoop (channel : String) : Nat → DB → Buffers → Int → DB × Buffers × Option String
  | 0, db, bufs, _ => (db, bufs, none)
  | fuel + 1, db, bufs, lastMessageNumber =>
    match getNextMessage bufs channel (lastMessageNumber + 1) with
    | none => (db, bufs, none)
    | some nextMsg =>
      let bufs' := removeMessage bufs channel nextMsg.metadata.messageNumber
      if nextMsg.metadata.messageNumber ≤ lastMessageNumber then
        drainLoop channel fuel db bufs' lastMessageNumber
      else
        match processMessage db nextMsg with
        | .error e => (db, bufs', some e)
        | .ok db1 =>
          drainLoop channel fuel
            (updateRocket db1 channel
              (fun r => { r with lastMessageNumber := nextMsg.metadata.messageNumber }))
            bufs' nextMsg.metadata.messageNumber

/-- Any fuel beyond the buffer's length yields the same run of the
drain loop: the fuel is bookkeeping, not behavior. -/
theorem drainLoop_fuel (channel : String) :
    ∀ (fuel fuel' : Nat) (db : DB) (bufs : Buffers) (lmn : Int),
      (getBuffer bufs channel).length < fuel →
      (getBuffer bufs channel).length < fuel' →
      drainLoop channel fuel db bufs lmn = drainLoop channel fuel' db bufs lmn := by
  intro fuel
  induction fuel with
  | zero => intro fuel' db bufs lmn h; omega
  | succ fuel ih =>
    intro fuel' db bufs lmn h h'
    match fuel', h' with
    | fuel' + 1, h' =>
      cases hn : getNextMessage bufs channel (lmn + 1) with
      | none => simp [drainLoop, hn]
      | some nextMsg =>
        have hlt := length_getBuffer_removeMessage_lt bufs channel _ nextMsg hn
        simp only [drainLoop, hn]
        by_cases hle : nextMsg.metadata.messageNumber ≤ lmn
        · simp only [if_pos hle]
          exact ih fuel' _ _ _ (by omega) (by omega)
        · simp only [if_neg hle]
          cases hp : processMessage db nextMsg with
          | error e => rfl
          | ok db1 => exact ih fuel' _ _ _ (by omega) (by omega)

/-- In-process state: the database and the reorder buffers. -/
structure SysState where
  db : DB
  bufs : Buffers
deriving DecidableEq

/-- `Inventory.UpdateRocketState`, one full call under the channel's
lock.  Returns the post-call state and the returned error (`none` is
Go's `nil`).  A committed call keeps the transaction's database; an
error return rolls the database back to its value at `Begin`, while
buffer mutations performed meanwhile stay. -/
def UpdateRocketState (s : SysState) (msg : RocketMessage) : SysState × Option String :=
  let channel := msg.metadata.channel
  let lastMessageNumber := lastMessageNumberOf s.db channel
  if msg.metadata.messageNumber ≤ lastMessageNumber then
    (s, none)
  else if msg.metadata.messageNumber > lastMessageNumber + 1 then
    let buf := getBuffer s.bufs channel
    if buf.any (fun m => m.metadata.messageNumber = msg.metadata.messageNumber) then
      (s, none)
    else
      ({ s with bufs := setBuffer s.bufs channel (sortByNumber (buf ++ [msg])) }, none)
  else
    match processMessage s.db msg with
    | .error e => (s, some e)
    | .ok db1 =>
      let db2 := updateRocket db1 channel
        (fun r => { r with lastMessageNumber := msg.metadata.messageNumber })
      match drainLoop channel ((getBuffer s.bufs channel).length + 1) db2 s.bufs
          msg.metadata.messageNumber with
      | (db3, bufs3, none) => ({ db := db3, bufs := bufs3 }, none)
      | (_, bufs3, some e) => ({ db := s.db, bufs := bufs3 }, some e)

/-- Sequential submission of a batch, keeping only the states. -/
def submitList (s : SysState) (msgs : List RocketMessage) : SysState :=
  msgs.foldl (fun st m => (UpdateRocketState st m).1) s

/-- The empty deployment: no rows, no buffers. -/
def initialState : SysState := { db := [], bufs := [] }

/-- A payload with every field at its zero value. -/
def payloadZero : JsonVal :=
  { wellFormed := true, type_ := "", launchSpeed := 0, mission := "",
    by_ := 0, reason := "", newMission := "" }

/-- A `RocketLaunched` message, as built in the inventory tests. -/
def launchedMsg (c : String) (n : Int) (ty : String) (sp : Int) (mi : String) :
    RocketMessage :=
  { metadata := { channel := c, messageNumber := n, messageTime := "",
                  messageType := "RocketLaunched" },
    message := { payloadZero with type_ := ty, launchSpeed := sp, mission := mi } }

/-- A `RocketSpeedIncreased` message. -/
def speedIncMsg (c : String) (n : Int) (d : Int) : RocketMessage :=
  { metadata := { channel := c, messageNumber := n, messageTime := "",
                  messageType := "RocketSpeedIncreased" },
    message := { payloadZero with by_ := d } }

/-- A `RocketSpeedDecreased` message. -/
def speedDecMsg (c : String) (n : Int) (d : Int) : RocketMessage :=
  { metadata := { channel := c, messageNumber := n, messageTime := "",
                  messageType := "RocketSpeedDecreased" },
    message := { payloadZero with by_ := d } }

/-- A message of an arbitrary kind tag with an empty payload. -/
def taggedMsg (c : String) (n : Int) (t : String) : RocketMessage :=
  { metadata := { channel := c, messageNumber := n, messageTime := "",
                  messageType := t },
    message := payloadZero }

/-! ### Database lemmas -/

theorem findRocket_cons_of_pos (p : String × Rocket) (rest : DB) (c : String)
    (h : p.1 = c) : findRocket (p :: rest) c = some p.2 := by
  simp [findRocket, List.find?_cons_of_pos, h]

theorem findRocket_cons_of_neg (p : String × Rocket) (rest : DB) (c : String)
    (h : ¬p.1 = c) : findRocket (p :: rest) c = findRocket rest c := by
  unfold findRocket
  rw [List.find?_cons_of_neg rest (by simpa using h)]

theorem findRocket_updateRocket_self (db : DB) (c : String) (f : Rocket → Rocket) :
    findRocket (updateRocket db c f) c = (findRocket db c).map f := by
  induction db with
  | nil => rfl
  | cons p rest ih =>
    by_cases h : p.1 = c
    · rw [updateRocket, List.map_cons, if_pos h]
      rw [findRocket_cons_of_pos (p.1, f p.2) _ _ (by simpa using h),
        findRocket_cons_of_pos _ _ _ h]
      rfl
    · rw [updateRocket, List.map_cons, if_neg h]
      rw [findRocket_cons_of_neg _ _ _ h, findRocket_cons_of_neg _ _ _ h]
      exact ih

theorem findRocket_updateRocket_ne (db : DB) (c c' : String) (f : Rocket → Rocket)
    (h : c' ≠ c) : findRocket (updateRocket db c f) c' = findRocket db c' := by
  induction db with
  | nil => rfl
  | cons p rest ih =>
    by_cases hp : p.1 = c
    · have hne : ¬p.1 = c' := by rw [hp]; exact Ne.symm h
      rw [updateRocket, List.map_cons, if_pos hp]
      rw [findRocket_cons_of_neg (p.1, f p.2) _ _ hne, findRocket_cons_of_neg _ _ _ hne]
      exact ih
    · rw [updateRocket, List.map_cons, if_neg hp]
      by_cases hp' : p.1 = c'
      · rw [findRocket_cons_of_pos _ _ _ hp', findRocket_cons_of_pos _ _ _ hp']
      · rw [findRocket_cons_of_neg _ _ _ hp', findRocket_cons_of_neg _ _ _ hp']
        exact ih

theorem updateRocket_no_row (db : DB) (c : String) (f : Rocket → Rocket)
    (h : findRocket db c = none) : updateRocket db c f = db := by
  induction db with
  | nil => rfl
  | cons p rest ih =>
    by_cases hp : p.1 = c
    · rw [findRocket_cons_of_pos _ _ _ hp] at h
      exact absurd h (by simp)
    · rw [findRocket_cons_of_neg _ _ _ hp] at h
      rw [updateRocket, List.map_cons, if_neg hp]
      have := ih h
      rw [updateRocket] at this
      rw [this]

theorem findRocket_append_of_none (db : DB) (c : String) (r : Rocket)
    (h : findRocket db c = none) : findRocket (db ++ [(c, r)]) c = some r := by
  induction db with
  | nil => simp [findRocket]
  | cons p rest ih =>
    by_cases hp : p.1 = c
    · rw [findRocket_cons_of_pos _ _ _ hp] at h
      exact absurd h (by simp)
    · rw [findRocket_cons_of_neg _ _ _ hp] at h
      rw [List.cons_append, findRocket_cons_of_neg _ _ _ hp]
      exact ih h

theorem findRocket_append_ne (db : DB) (c c' : String) (r : Rocket) (h : c' ≠ c) :
    findRocket (db ++ [(c, r)]) c' = findRocket db c' := by
  induction db with
  | nil => simp [findRocket, Ne.symm h]
  | cons p rest ih =>
    by_cases hp : p.1 = c'
    · rw [List.cons_append, findRocket_cons_of_pos _ _ _ hp, findRocket_cons_of_pos _ _ _ hp]
    · rw [List.cons_append, findRocket_cons_of_neg _ _ _ hp, findRocket_cons_of_neg _ _ _ hp]
      exact ih

theorem findRocket_upsertRocket_self (db : DB) (c : String) (r : Rocket) :
    findRocket (upsertRocket db c r) c = some r := by
  unfold upsertRocket
  cases h : findRocket db c with
  | none => simpa [h] using findRocket_append_of_none db c r h
  | some r0 => simp [h, findRocket_updateRocket_self]

theorem findRocket_upsertRocket_ne (db : DB) (c c' : String) (r : Rocket) (h : c' ≠ c) :
    findRocket (upsertRocket db c r) c' = findRocket db c' := by
  unfold upsertRocket
  cases hf : findRocket db c with
  | none => simpa [hf] using findRocket_append_ne db c c' r h
  | some r0 => simp [hf, findRocket_updateRocket_ne db c c' _ h]

/-! ### processMessage lemmas -/

theorem processMessage_ok_of_valid (db : DB) (msg : RocketMessage)
    (hk : msg.metadata.messageType ∈ registeredKinds)
    (hw : msg.message.wellFormed = true) :
    ∃ db1, processMessage db msg = .ok db1 := by
  unfold processMessage
  split
  case h_1 => exact ⟨_, by rw [rocketLaunchedProcess, if_pos (by simp [hw])]⟩
  case h_2 => exact ⟨_, by rw [rocketSpeedIncreasedProcess, if_pos (by simp [hw])]⟩
  case h_3 => exact ⟨_, by rw [rocketSpeedDecreasedProcess, if_pos (by simp [hw])]⟩
  case h_4 => exact ⟨_, by rw [rocketExplodedProcess, if_pos (by simp [hw])]⟩
  case h_5 => exact ⟨_, by rw [rocketMissionChangedProcess, if_pos (by simp [hw])]⟩
  case h_6 => simp_all [registeredKinds]

theorem processMessage_error_of_invalid (db : DB) (msg : RocketMessage)
    (h : msg.metadata.messageType ∉ registeredKinds ∨ msg.message.wellFormed = false) :
    ∃ e, processMessage db msg = .error e := by
  unfold processMessage
  split
  case h_1 ht =>
    rcases h with h | h
    · exact absurd (by rw [ht]; simp [registeredKinds]) h
    · exact ⟨_, by rw [rocketLaunchedProcess, if_neg (by simp [h])]⟩
  case h_2 ht =>
    rcases h with h | h
    · exact absurd (by rw [ht]; simp [registeredKinds]) h
    · exact ⟨_, by rw [rocketSpeedIncreasedProcess, if_neg (by simp [h])]⟩
  case h_3 ht =>
    rcases h with h | h
    · exact absurd (by rw [ht]; simp [registeredKinds]) h
    · exact ⟨_, by rw [rocketSpeedDecreasedProcess, if_neg (by simp [h])]⟩
  case h_4 ht =>
    rcases h with h | h
    · exact absurd (by rw [ht]; simp [registeredKinds]) h
    · exact ⟨_, by rw [rocketExplodedProcess, if_neg (by simp [h])]⟩
  case h_5 ht =>
    rcases h with h | h
    · exact absurd (by rw [ht]; simp [registeredKinds]) h
    · exact ⟨_, by rw [rocketMissionChangedProcess, if_neg (by simp [h])]⟩
  case h_6 => exact ⟨_, rfl⟩

theorem processMessage_unknown (db : DB) (msg : RocketMessage)
    (h : msg.metadata.messageType ∉ registeredKinds) :
    processMessage db msg = .error ("invalid message type: " ++ msg.metadata.messageType) := by
  unfold processMessage
  split
  case h_1 ht => exact absurd (by rw [ht]; simp [registeredKinds]) h
  case h_2 ht => exact absurd (by rw [ht]; simp [registeredKinds]) h
  case h_3 ht => exact absurd (by rw [ht]; simp [registeredKinds]) h
  case h_4 ht => exact absurd (by rw [ht]; simp [registeredKinds]) h
  case h_5 ht => exact absurd (by rw [ht]; simp [registeredKinds]) h
  case h_6 => rfl

/-- What a successful handler run is: the launched handler upserts its
literal row; every other handler is a per-row update that stamps the
message number and keeps a nonnegative speed nonnegative (given a
nonnegative delta). -/
theorem processMessage_ok_spec (db db1 : DB) (msg : RocketMessage)
    (hok : processMessage db msg = .ok db1) :
    (msg.metadata.messageType = "RocketLaunched" ∧
      db1 = upsertRocket db msg.metadata.channel
        { type_ := msg.message.type_, speed := msg.message.launchSpeed,
          mission := msg.message.mission, status := "launched",
          lastMessageNumber := msg.metadata.messageNumber }) ∨
    (msg.metadata.messageType ≠ "RocketLaunched" ∧
      ∃ f : Rocket → Rocket, db1 = updateRocket db msg.metadata.channel f ∧
        (∀ r, (f r).lastMessageNumber = msg.metadata.messageNumber) ∧
        (∀ r, 0 ≤ r.speed → 0 ≤ msg.message.by_ → 0 ≤ (f r).speed)) := by
  unfold processMessage at hok
  split at hok
  case h_1 ht =>
    rw [rocketLaunchedProcess] at hok
    split at hok
    · cases hok
      exact Or.inl ⟨ht, rfl⟩
    · cases hok
  case h_2 ht =>
    rw [rocketSpeedIncreasedProcess] at hok
    split at hok
    · cases hok
      refine Or.inr ⟨by rw [ht]; decide, _, rfl, fun r => rfl, fun r h1 h2 => ?_⟩
      simpa using add_nonneg h1 h2
    · cases hok
  case h_3 ht =>
    rw [rocketSpeedDecreasedProcess] at hok
    split at hok
    · cases hok
      refine Or.inr ⟨by rw [ht]; decide, _, rfl, fun r => rfl, fun r h1 _ => ?_⟩
      show (0:Int) ≤ if r.speed - msg.message.by_ < 0 then 0 else r.speed - msg.message.by_
      split <;> omega
    · cases hok
  case h_4 ht =>
    rw [rocketExplodedProcess] at hok
    split at hok
    · cases hok
      exact Or.inr ⟨by rw [ht]; decide, _, rfl, fun r => rfl, fun r h1 _ => h1⟩
    · cases hok
  case h_5 ht =>
    rw [rocketMissionChangedProcess] at hok
    split at hok
    · cases hok
      exact Or.inr ⟨by rw [ht]; decide, _, rfl, fun r => rfl, fun r h1 _ => h1⟩
    · cases hok
  case h_6 => cases hok

theorem findRocket_processMessage_ne (db db1 : DB) (msg : RocketMessage) (c' : String)
    (hok : processMessage db msg = .ok db1) (hne : c' ≠ msg.metadata.channel) :
    findRocket db1 c' = findRocket db c' := by
  rcases processMessage_ok_spec db db1 msg hok with ⟨_, rfl⟩ | ⟨_, f, rfl, _, _⟩
  · exact findRocket_upsertRocket_ne _ _ _ _ hne
  · exact findRocket_updateRocket_ne _ _ _ _ hne

theorem processMessage_presence (db db1 : DB) (msg : RocketMessage)
    (hok : processMessage db msg = .ok db1)
    (hs : (findRocket db msg.metadata.channel).isSome) :
    (findRocket db1 msg.metadata.channel).isSome := by
  rcases processMessage_ok_spec db db1 msg hok with ⟨_, rfl⟩ | ⟨_, f, rfl, _, _⟩
  · rw [findRocket_upsertRocket_self]
    rfl
  · rw [findRocket_updateRocket_self]
    simpa using hs

theorem processMessage_lmn (db db1 : DB) (msg : RocketMessage) (r : Rocket)
    (hok : processMessage db msg = .ok db1)
    (hr : findRocket db1 msg.metadata.channel = some r) :
    r.lastMessageNumber = msg.metadata.messageNumber := by
  rcases processMessage_ok_spec db db1 msg hok with ⟨_, rfl⟩ | ⟨_, f, rfl, hf, _⟩
  · rw [findRocket_upsertRocket_self] at hr
    cases hr
    rfl
  · rw [findRocket_updateRocket_self] at hr
    cases h0 : findRocket db msg.metadata.channel <;> rw [h0] at hr <;> simp at hr
    rw [← hr]
    exact hf _

theorem processMessage_no_row (db db1 : DB) (msg : RocketMessage)
    (hok : processMessage db msg = .ok db1)
    (hn : findRocket db msg.metadata.channel = none)
    (hk : msg.metadata.messageType ≠ "RocketLaunched") :
    db1 = db := by
  rcases processMessage_ok_spec db db1 msg hok with ⟨ht, _⟩ | ⟨_, f, rfl, _, _⟩
  · exact absurd ht hk
  · exact updateRocket_no_row _ _ _ hn

theorem processMessage_launched_presence (db db1 : DB) (msg : RocketMessage)
    (hok : processMessage db msg = .ok db1)
    (hk : msg.metadata.messageType = "RocketLaunched") :
    (findRocket db1 msg.metadata.channel).isSome := by
  rcases processMessage_ok_spec db db1 msg hok with ⟨_, rfl⟩ | ⟨ht, _⟩
  · rw [findRocket_upsertRocket_self]
    rfl
  · exact absurd hk ht
/-! ### Buffer and sorting lemmas -/

/-- Shorthand for the sort key. -/
def msgNum (m : RocketMessage) : Int := m.metadata.messageNumber

theorem mem_setBuffer (bufs : Buffers) (c : String) (l : List RocketMessage)
    (b : String × List RocketMessage) (hb : b ∈ setBuffer bufs c l) :
    b = (c, l) ∨ b ∈ bufs := by
  induction bufs with
  | nil =>
    simp only [setBuffer, List.mem_singleton] at hb
    exact Or.inl hb
  | cons p rest ih =>
    by_cases hp : p.1 = c
    · rw [setBuffer, if_pos hp] at hb
      rcases List.mem_cons.mp hb with h | h
      · exact Or.inl h
      · exact Or.inr (List.mem_cons_of_mem _ h)
    · rw [setBuffer, if_neg hp] at hb
      rcases List.mem_cons.mp hb with h | h
      · exact Or.inr (h ▸ List.mem_cons_self _ _)
      · rcases ih h with h' | h'
        · exact Or.inl h'
        · exact Or.inr (List.mem_cons_of_mem _ h')

theorem mem_getBuffer (bufs : Buffers) (c : String) (m : RocketMessage)
    (hm : m ∈ getBuffer bufs c) : ∃ b ∈ bufs, b.1 = c ∧ m ∈ b.2 := by
  unfold getBuffer at hm
  cases hf : bufs.find? (fun p => p.1 = c) with
  | none => rw [hf] at hm; cases hm
  | some b =>
    rw [hf] at hm
    exact ⟨b, List.mem_of_find?_eq_some hf, by simpa using List.find?_some hf, hm⟩

theorem insertByNumber_perm (m : RocketMessage) (l : List RocketMessage) :
    (insertByNumber m l).Perm (m :: l) := by
  induction l with
  | nil => rfl
  | cons x xs ih =>
    rw [insertByNumber]
    split
    · rfl
    · exact ((ih.cons x).trans (List.Perm.swap m x xs))

theorem sortByNumber_perm (l : List RocketMessage) : (sortByNumber l).Perm l := by
  induction l with
  | nil => rfl
  | cons x xs ih =>
    rw [sortByNumber]
    exact (insertByNumber_perm x (sortByNumber xs)).trans (ih.cons x)

theorem insertByNumber_sorted (m : RocketMessage) (l : List RocketMessage)
    (hl : l.Pairwise (fun a b => msgNum a ≤ msgNum b)) :
    (insertByNumber m l).Pairwise (fun a b => msgNum a ≤ msgNum b) := by
  induction l with
  | nil => simp [insertByNumber]
  | cons x xs ih =>
    rw [insertByNumber]
    rcases List.pairwise_cons.mp hl with ⟨hx, hxs⟩
    split
    case isTrue hle =>
      refine List.pairwise_cons.mpr ⟨?_, hl⟩
      intro y hy
      rcases List.mem_cons.mp hy with rfl | hy
      · exact hle
      · exact le_trans hle (hx y hy)
    case isFalse hle =>
      refine List.pairwise_cons.mpr ⟨?_, ih hxs⟩
      intro y hy
      rcases List.mem_cons.mp ((insertByNumber_perm m xs).mem_iff.mp hy) with rfl | hy'
      · unfold msgNum
        omega
      · exact hx y hy'

theorem sortByNumber_sorted (l : List RocketMessage) :
    (sortByNumber l).Pairwise (fun a b => msgNum a ≤ msgNum b) := by
  induction l with
  | nil => simp [sortByNumber]
  | cons x xs ih => exact insertByNumber_sorted x (sortByNumber xs) ih

/-- Strictly sorted (by message number) lists with the same members are
equal. -/
theorem eq_of_pairwise_lt_of_mem_iff :
    ∀ (l₁ l₂ : List RocketMessage),
      l₁.Pairwise (fun a b => msgNum a < msgNum b) →
      l₂.Pairwise (fun a b => msgNum a < msgNum b) →
      (∀ x, x ∈ l₁ ↔ x ∈ l₂) → l₁ = l₂ := by
  intro l₁
  induction l₁ with
  | nil =>
    intro l₂ _ _ hmem
    cases l₂ with
    | nil => rfl
    | cons b t₂ => exact absurd ((hmem b).mpr (List.mem_cons_self b t₂)) (List.not_mem_nil b)
  | cons a t₁ ih =>
    intro l₂ h₁ h₂ hmem
    cases l₂ with
    | nil => exact absurd ((hmem a).mp (List.mem_cons_self a t₁)) (List.not_mem_nil a)
    | cons b t₂ =>
      rcases List.pairwise_cons.mp h₁ with ⟨ha, ht₁⟩
      rcases List.pairwise_cons.mp h₂ with ⟨hb, ht₂⟩
      have hab : a = b := by
        rcases List.mem_cons.mp ((hmem a).mp (List.mem_cons_self a t₁)) with h | h
        · exact h
        · rcases List.mem_cons.mp ((hmem b).mpr (List.mem_cons_self b t₂)) with h' | h'
          · exact h'.symm
          · have := hb a h
            have := ha b h'
            omega
      subst hab
      have ht : ∀ x, x ∈ t₁ ↔ x ∈ t₂ := by
        intro x
        constructor
        · intro hx
          rcases List.mem_cons.mp ((hmem x).mp (List.mem_cons_of_mem a hx)) with h | h
          · exact absurd (h ▸ ha x hx) (by omega)
          · exact h
        · intro hx
          rcases List.mem_cons.mp ((hmem x).mpr (List.mem_cons_of_mem a hx)) with h | h
          · exact absurd (h ▸ hb x hx) (by omega)
          · exact h
      rw [ih t₂ ht₁ ht₂ ht]

/-! ### Drain-loop lemmas -/

/-- Buffered messages are keyed under their own channel — true of every
state the engine itself builds, since `UpdateRocketState` buffers a
message under `msg.metadata.channel`. -/
def wellKeyed (bufs : Buffers) : Prop :=
  ∀ b ∈ bufs, ∀ m ∈ b.2, m.metadata.channel = b.1

instance (bufs : Buffers) : Decidable (wellKeyed bufs) := by
  unfold wellKeyed
  infer_instance

theorem wellKeyed_setBuffer (bufs : Buffers) (c : String) (l : List RocketMessage)
    (hb : wellKeyed bufs) (hl : ∀ m ∈ l, m.metadata.channel = c) :
    wellKeyed (setBuffer bufs c l) := by
  intro b hmem m hm
  rcases mem_setBuffer bufs c l b hmem with rfl | h
  · exact hl m hm
  · exact hb b h m hm

theorem wellKeyed_removeMessage (bufs : Buffers) (c : String) (n : Int)
    (hb : wellKeyed bufs) : wellKeyed (removeMessage bufs c n) := by
  unfold removeMessage
  refine wellKeyed_setBuffer _ _ _ hb ?_
  intro m hm
  have hmm := List.mem_of_mem_filter hm
  rcases mem_getBuffer bufs c m hmm with ⟨b, hbm, hbc, hmb⟩
  rw [← hbc]
  exact hb b hbm m hmb

theorem getNextMessage_channel (bufs : Buffers) (c : String) (n : Int)
    (m : RocketMessage) (hk : wellKeyed bufs) (hm : getNextMessage bufs c n = some m) :
    m.metadata.channel = c := by
  have hmem : m ∈ getBuffer bufs c := List.mem_of_find?_eq_some hm
  rcases mem_getBuffer bufs c m hmem with ⟨b, hbm, hbc, hmb⟩
  rw [← hbc]
  exact hk b hbm m hmb

theorem getNextMessage_num (bufs : Buffers) (c : String) (n : Int)
    (m : RocketMessage) (hm : getNextMessage bufs c n = some m) :
    m.metadata.messageNumber = n := by
  simpa using List.find?_some hm

theorem getNextMessage_eq_none (bufs : Buffers) (c : String) (n : Int) :
    getNextMessage bufs c n = none ↔
      ∀ m ∈ getBuffer bufs c, m.metadata.messageNumber ≠ n := by
  unfold getNextMessage
  rw [List.find?_eq_none]
  simp

theorem getNextMessage_none_of_sublist (l : Buffers) (bufs : Buffers) (c : String)
    (n : Int) (hs : (getBuffer l c).Sublist (getBuffer bufs c))
    (h : getNextMessage bufs c n = none) : getNextMessage l c n = none := by
  rw [getNextMessage_eq_none] at h ⊢
  exact fun m hm => h m (hs.mem hm)

theorem drainLoop_buffer_sublist (channel : String) :
    ∀ (fuel : Nat) (db : DB) (bufs : Buffers) (lmn : Int) (c' : String),
      (getBuffer (drainLoop channel fuel db bufs lmn).2.1 c').Sublist (getBuffer bufs c') := by
  intro fuel
  induction fuel with
  | zero => intro db bufs lmn c'; exact List.Sublist.refl _
  | succ fuel ih =>
    intro db bufs lmn c'
    rw [drainLoop]
    cases hn : getNextMessage bufs channel (lmn + 1) with
    | none => exact List.Sublist.refl _
    | some nextMsg =>
      have hsub : (getBuffer (removeMessage bufs channel nextMsg.metadata.messageNumber) c').Sublist
          (getBuffer bufs c') := by
        by_cases hc : c' = channel
        · subst hc
          rw [getBuffer_removeMessage]
          exact List.filter_sublist _
        · rw [getBuffer_removeMessage_ne _ _ _ _ hc]
      simp only []
      split
      · exact (ih _ _ _ c').trans hsub
      · cases hp : processMessage db nextMsg with
        | error e => simpa [hp] using hsub
        | ok db1 => simpa [hp] using (ih _ _ _ c').trans hsub

theorem drainLoop_buffer_ne (channel : String) :
    ∀ (fuel : Nat) (db : DB) (bufs : Buffers) (lmn : Int) (c' : String), c' ≠ channel →
      getBuffer (drainLoop channel fuel db bufs lmn).2.1 c' = getBuffer bufs c' := by
  intro fuel
  induction fuel with
  | zero => intro db bufs lmn c' _; rfl
  | succ fuel ih =>
    intro db bufs lmn c' hc
    rw [drainLoop]
    cases hn : getNextMessage bufs channel (lmn + 1) with
    | none => rfl
    | some nextMsg =>
      have hb := getBuffer_removeMessage_ne bufs channel c'
        nextMsg.metadata.messageNumber hc
      simp only []
      split
      · rw [ih _ _ _ c' hc, hb]
      · cases hp : processMessage db nextMsg with
        | error e => simpa [hp] using hb
        | ok db1 => simp only [hp]; rw [ih _ _ _ c' hc, hb]

theorem drainLoop_db_ne (channel : String) :
    ∀ (fuel : Nat) (db : DB) (bufs : Buffers) (lmn : Int) (c' : String),
      wellKeyed bufs → c' ≠ channel →
      findRocket (drainLoop channel fuel db bufs lmn).1 c' = findRocket db c' := by
  intro fuel
  induction fuel with
  | zero => intro db bufs lmn c' _ _; rfl
  | succ fuel ih =>
    intro db bufs lmn c' hk hc
    rw [drainLoop]
    cases hn : getNextMessage bufs channel (lmn + 1) with
    | none => rfl
    | some nextMsg =>
      have hk' := wellKeyed_removeMessage bufs channel nextMsg.metadata.messageNumber hk
      simp only []
      split
      · exact ih _ _ _ c' hk' hc
      · cases hp : processMessage db nextMsg with
        | error e => simp [hp]
        | ok db1 =>
          simp only [hp]
          rw [ih _ _ _ c' hk' hc]
          rw [findRocket_updateRocket_ne _ _ _ _ hc]
          exact findRocket_processMessage_ne db db1 nextMsg c' hp
            (by rw [getNextMessage_channel bufs channel _ nextMsg hk hn]; exact hc)

theorem processMessage_presence_any (db db1 : DB) (msg : RocketMessage) (c : String)
    (hok : processMessage db msg = .ok db1)
    (hs : (findRocket db c).isSome) : (findRocket db1 c).isSome := by
  by_cases hc : c = msg.metadata.channel
  · subst hc
    exact processMessage_presence db db1 msg hok hs
  · rw [findRocket_processMessage_ne db db1 msg c hok hc]
    exact hs

/-- What a successful drain guarantees: some final sequence number `L ≥ lmn`
such that no buffered message with number in `(lmn, L+1]` remains for the
channel, row presence is preserved, a present row carries watermark `L`,
and (when every buffered number exceeded `lmn` on entry) every remaining
buffered number exceeds `L + 1`. -/
theorem drainLoop_ok_spec (channel : String) :
    ∀ (fuel : Nat) (db : DB) (bufs : Buffers) (lmn : Int) (db' : DB) (bufs' : Buffers),
      (getBuffer bufs channel).length < fuel →
      ((findRocket db channel).isSome → lastMessageNumberOf db channel = lmn) →
      drainLoop channel fuel db bufs lmn = (db', bufs', none) →
      ∃ L : Int, lmn ≤ L ∧
        (∀ j : Int, lmn < j → j ≤ L + 1 → getNextMessage bufs' channel j = none) ∧
        ((findRocket db channel).isSome → (findRocket db' channel).isSome) ∧
        ((findRocket db' channel).isSome → lastMessageNumberOf db' channel = L) ∧
        ((∀ m ∈ getBuffer bufs channel, lmn < msgNum m) →
          ∀ m ∈ getBuffer bufs' channel, L + 1 < msgNum m) := by
  intro fuel
  induction fuel with
  | zero => intro db bufs lmn db' bufs' hf; omega
  | succ fuel ih =>
    intro db bufs lmn db' bufs' hf hwm hrun
    rw [drainLoop] at hrun
    cases hn : getNextMessage bufs channel (lmn + 1) with
    | none =>
      rw [hn] at hrun
      cases hrun
      refine ⟨lmn, le_refl lmn, ?_, fun h => h, hwm, ?_⟩
      · intro j hj1 hj2
        have : j = lmn + 1 := by omega
        rw [this]
        exact hn
      · intro hmem m hm
        have hne := (getNextMessage_eq_none bufs channel (lmn + 1)).mp hn m hm
        have := hmem m hm
        unfold msgNum at *
        omega
    | some nextMsg =>
      rw [hn] at hrun
      have hnum := getNextMessage_num bufs channel (lmn + 1) nextMsg hn
      have hlt := length_getBuffer_removeMessage_lt bufs channel (lmn + 1) nextMsg hn
      simp only [] at hrun
      rw [if_neg (by omega)] at hrun
      cases hp : processMessage db nextMsg with
      | error e =>
        rw [hp] at hrun
        have hrun' : (db, removeMessage bufs channel nextMsg.metadata.messageNumber,
            (some e : Option String)) = (db', bufs', none) := hrun
        simp at hrun'
      | ok db1 =>
        rw [hp] at hrun
        have hrun' : drainLoop channel fuel
            (updateRocket db1 channel
              (fun r => { r with lastMessageNumber := nextMsg.metadata.messageNumber }))
            (removeMessage bufs channel nextMsg.metadata.messageNumber)
            nextMsg.metadata.messageNumber = (db', bufs', none) := hrun
        clear hrun
        rw [hnum] at hrun'
        set bufs2 := removeMessage bufs channel (lmn + 1) with hbufs2
        set db2 := updateRocket db1 channel
          (fun r => { r with lastMessageNumber := lmn + 1 }) with hdb2
        have hlt2 : (getBuffer bufs2 channel).length < (getBuffer bufs channel).length := by
          rw [hbufs2, ← hnum]
          exact hlt
        have hwm2 : (findRocket db2 channel).isSome →
            lastMessageNumberOf db2 channel = lmn + 1 := by
          intro hs
          rw [hdb2, lastMessageNumberOf, findRocket_updateRocket_self]
          cases h1 : findRocket db1 channel with
          | none =>
            rw [hdb2, findRocket_updateRocket_self, h1] at hs
            cases hs
          | some r => simp [h1]
        rcases ih db2 bufs2 (lmn + 1) db' bufs' (by omega) hwm2 hrun' with
          ⟨L, hL, habs, hpres, hwmL, hbnd⟩
        refine ⟨L, by omega, ?_, ?_, hwmL, ?_⟩
        · intro j hj1 hj2
          by_cases hj : lmn + 1 < j
          · exact habs j hj hj2
          · have : j = lmn + 1 := by omega
            subst this
            refine getNextMessage_none_of_sublist bufs' bufs2 channel (lmn + 1)
              ?_ ?_
            · have := drainLoop_buffer_sublist channel fuel db2 bufs2 (lmn + 1) channel
              rw [hrun'] at this
              exact this
            · rw [getNextMessage_eq_none]
              intro m hm
              rw [hbufs2, getBuffer_removeMessage] at hm
              have := List.of_mem_filter hm
              simp only [hnum] at this
              simpa using this
        · intro hs
          refine hpres ?_
          rw [hdb2, findRocket_updateRocket_self]
          have h1 := processMessage_presence_any db db1 nextMsg channel hp hs
          simpa using h1
        · intro hmem m hm
          refine hbnd ?_ m hm
          intro m' hm'
          rw [hbufs2, getBuffer_removeMessage] at hm'
          have h1 := List.of_mem_filter hm'
          have h2 := List.mem_of_mem_filter hm'
          have := hmem m' h2
          simp only [hnum] at h1
          unfold msgNum at *
          simp at h1
          omega

/-! ### Branch lemmas for UpdateRocketState -/

theorem submit_duplicate (s : SysState) (msg : RocketMessage)
    (h : msg.metadata.messageNumber ≤ lastMessageNumberOf s.db msg.metadata.channel) :
    UpdateRocketState s msg = (s, none) := by
  unfold UpdateRocketState
  rw [if_pos h]

theorem submit_gap_already (s : SysState) (msg : RocketMessage)
    (h1 : ¬msg.metadata.messageNumber ≤ lastMessageNumberOf s.db msg.metadata.channel)
    (h2 : msg.metadata.messageNumber > lastMessageNumberOf s.db msg.metadata.channel + 1)
    (h3 : (getBuffer s.bufs msg.metadata.channel).any
      (fun m => m.metadata.messageNumber = msg.metadata.messageNumber)) :
    UpdateRocketState s msg = (s, none) := by
  unfold UpdateRocketState
  rw [if_neg h1, if_pos h2, if_pos h3]

theorem submit_gap_insert (s : SysState) (msg : RocketMessage)
    (h1 : ¬msg.metadata.messageNumber ≤ lastMessageNumberOf s.db msg.metadata.channel)
    (h2 : msg.metadata.messageNumber > lastMessageNumberOf s.db msg.metadata.channel + 1)
    (h3 : ¬(getBuffer s.bufs msg.metadata.channel).any
      (fun m => m.metadata.messageNumber = msg.metadata.messageNumber)) :
    UpdateRocketState s msg =
      ({ s with bufs := (setBuffer s.bufs msg.metadata.channel
          (sortByNumber (getBuffer s.bufs msg.metadata.channel ++ [msg]))) }, none) := by
  unfold UpdateRocketState
  rw [if_neg h1, if_pos h2, if_neg h3]

theorem submit_inorder_procerr (s : SysState) (msg : RocketMessage) (e : String)
    (h1 : ¬msg.metadata.messageNumber ≤ lastMessageNumberOf s.db msg.metadata.channel)
    (h2 : ¬msg.metadata.messageNumber > lastMessageNumberOf s.db msg.metadata.channel + 1)
    (hp : processMessage s.db msg = .error e) :
    UpdateRocketState s msg = (s, some e) := by
  unfold UpdateRocketState
  rw [if_neg h1, if_neg h2, hp]

theorem submit_inorder_ok (s : SysState) (msg : RocketMessage) (db1 : DB)
    (h1 : ¬msg.metadata.messageNumber ≤ lastMessageNumberOf s.db msg.metadata.channel)
    (h2 : ¬msg.metadata.messageNumber > lastMessageNumberOf s.db msg.metadata.channel + 1)
    (hp : processMessage s.db msg = .ok db1) :
    UpdateRocketState s msg =
      match drainLoop msg.metadata.channel
          ((getBuffer s.bufs msg.metadata.channel).length + 1)
          (updateRocket db1 msg.metadata.channel
            (fun r => { r with lastMessageNumber := msg.metadata.messageNumber }))
          s.bufs msg.metadata.messageNumber with
      | (db3, bufs3, none) => ({ db := db3, bufs := bufs3 }, none)
      | (_, bufs3, some e) => ({ db := s.db, bufs := bufs3 }, some e) := by
  unfold UpdateRocketState
  rw [if_neg h1, if_neg h2, hp]

/-! ### Claim C7: the gap-then-drain scenario -/

/-- C7: submitting SpeedIncreased(seq 3, by 200), then Launched(seq 1,
speed 500), then SpeedIncreased(seq 2, by 300) for one fresh key
buffers the gap arrival (success, not an error), then drains it once
the gap closes: the final aggregate has speed 1000 and watermark 3,
with an empty buffer. -/
theorem scenario_gap_drain :
    (UpdateRocketState initialState (speedIncMsg "K" 3 200)).2 = none ∧
    getBuffer (UpdateRocketState initialState (speedIncMsg "K" 3 200)).1.bufs "K"
      = [speedIncMsg "K" 3 200] ∧
    (submitList initialState
        [speedIncMsg "K" 3 200, launchedMsg "K" 1 "Falcon-9" 500 "ARTEMIS",
         speedIncMsg "K" 2 300]).db
      = [("K", { type_ := "Falcon-9", speed := 1000, mission := "ARTEMIS",
                 status := "launched", lastMessageNumber := 3 })] ∧
    lastMessageNumberOf (submitList initialState
        [speedIncMsg "K" 3 200, launchedMsg "K" 1 "Falcon-9" 500 "ARTEMIS",
         speedIncMsg "K" 2 300]).db "K" = 3 ∧
    getBuffer (submitList initialState
        [speedIncMsg "K" 3 200, launchedMsg "K" 1 "Falcon-9" 500 "ARTEMIS",
         speedIncMsg "K" 2 300]).bufs "K" = [] := by
  decide

/-! ### Claim C6: the unknown-kind error message -/

/-- C6 (counterexample): on an unknown kind the registry's error message
is "invalid message type: Bogus", not the spec's
"unrecognized transition kind: Bogus". -/
theorem unknown_kind_message_counterexample :
    processMessage [] (taggedMsg "K" 1 "Bogus") =
      .error "invalid message type: Bogus" ∧
    processMessage [] (taggedMsg "K" 1 "Bogus") ≠
      .error "unrecognized transition kind: Bogus" := by
  refine ⟨rfl, fun h => ?_⟩
  exact absurd (Except.error.inj h) (by decide)

/-- C6 (amended): for every event with an unknown kind tag the registry
returns an error whose message is exactly
"invalid message type: {kind}" with {kind} the event's kind tag. -/
theorem unknown_kind_error_message (db : DB) (msg : RocketMessage)
    (h : msg.metadata.messageType ∉ registeredKinds) :
    processMessage db msg =
      .error ("invalid message type: " ++ msg.metadata.messageType) :=
  processMessage_unknown db msg h

/-- Witness for `unknown_kind_error_message` at the kind "Bogus". -/
theorem unknown_kind_error_message_witness :
    "Bogus" ∉ registeredKinds ∧
    processMessage [] (taggedMsg "K" 1 "Bogus") =
      .error ("invalid message type: " ++ "Bogus") :=
  ⟨by decide, unknown_kind_error_message [] (taggedMsg "K" 1 "Bogus") (by decide)⟩

/-! ### Claim C2: in-order invalid events are rejected atomically -/

/-- C2: an in-order event (sequence = watermark + 1) whose kind is
unregistered or whose payload does not decode makes Submit return an
error and leave the state exactly as it was: no row created or
modified, watermark not advanced, nothing buffered. -/
theorem inorder_invalid_event_rejected (s : SysState) (msg : RocketMessage)
    (hn : msg.metadata.messageNumber =
      lastMessageNumberOf s.db msg.metadata.channel + 1)
    (hbad : msg.metadata.messageType ∉ registeredKinds ∨
      msg.message.wellFormed = false) :
    (UpdateRocketState s msg).1 = s ∧ ∃ e, (UpdateRocketState s msg).2 = some e := by
  rcases processMessage_error_of_invalid s.db msg hbad with ⟨e, hp⟩
  rw [submit_inorder_procerr s msg e (by omega) (by omega) hp]
  exact ⟨rfl, e, rfl⟩

/-- Witness for `inorder_invalid_event_rejected`: unknown kind "Bogus" at
sequence 1 on a fresh key leaves no aggregate row and watermark 0. -/
theorem inorder_invalid_event_rejected_witness :
    ((taggedMsg "K" 1 "Bogus").metadata.messageNumber =
      lastMessageNumberOf initialState.db (taggedMsg "K" 1 "Bogus").metadata.channel + 1) ∧
    ((UpdateRocketState initialState (taggedMsg "K" 1 "Bogus")).1 = initialState ∧
      ∃ e, (UpdateRocketState initialState (taggedMsg "K" 1 "Bogus")).2 = some e) ∧
    findRocket (UpdateRocketState initialState (taggedMsg "K" 1 "Bogus")).1.db "K" = none ∧
    lastMessageNumberOf (UpdateRocketState initialState (taggedMsg "K" 1 "Bogus")).1.db "K" = 0 :=
  ⟨by decide,
   inorder_invalid_event_rejected initialState (taggedMsg "K" 1 "Bogus")
     (by decide) (Or.inl (by decide)),
   by decide, by decide⟩

/-! ### Claim C1: what a mid-drain transition failure leaves behind -/

/-- A committed rocket row used by the failure scenarios. -/
def r500 : Rocket :=
  { type_ := "Falcon-9", speed := 500, mission := "ARTEMIS", status := "launched",
    lastMessageNumber := 1 }

/-- Watermark 1, with SpeedIncreased(seq 3) and an unknown-kind event
(seq 4) waiting in the reorder buffer. -/
def crashState : SysState :=
  { db := [("K", r500)], bufs := [("K", [speedIncMsg "K" 3 100, taggedMsg "K" 4 "Bogus"])] }

/-- C1 (counterexample): submitting SpeedIncreased(seq 2) to `crashState`
applies 2 and 3 and then fails on the buffered unknown-kind event 4 —
and the persisted watermark is 1 (its pre-call value), not 3 (the last
successfully applied sequence, as the claim states): the whole call's
transaction rolled back, while the drained events 3 and 4 were removed
from the buffer. -/
theorem drain_failure_counterexample :
    (UpdateRocketState crashState (speedIncMsg "K" 2 50)).2 =
      some "invalid message type: Bogus" ∧
    lastMessageNumberOf (UpdateRocketState crashState (speedIncMsg "K" 2 50)).1.db "K" = 1 ∧
    lastMessageNumberOf (UpdateRocketState crashState (speedIncMsg "K" 2 50)).1.db "K" ≠ 3 ∧
    (UpdateRocketState crashState (speedIncMsg "K" 2 50)).1.db = crashState.db ∧
    getBuffer (UpdateRocketState crashState (speedIncMsg "K" 2 50)).1.bufs "K" = [] := by
  decide

/-- C1 (amended): the engine runs one transaction per Submit call, not
one per drain iteration; when a transition fails (in-order or
mid-drain) the database — aggregate and watermark — is rolled back to
its value before the call, and the reorder buffer is only ever shrunk:
the failing buffered event and every event drained earlier in the same
call have been removed and are not re-buffered, so they are lost. -/
theorem submit_error_rollback (s : SysState) (msg : RocketMessage) (e : String)
    (h : (UpdateRocketState s msg).2 = some e) :
    (UpdateRocketState s msg).1.db = s.db ∧
    ∀ c, ((getBuffer (UpdateRocketState s msg).1.bufs c).Sublist (getBuffer s.bufs c)) := by
  by_cases hd : msg.metadata.messageNumber ≤ lastMessageNumberOf s.db msg.metadata.channel
  · rw [submit_duplicate s msg hd] at h
    cases h
  by_cases hg : msg.metadata.messageNumber > lastMessageNumberOf s.db msg.metadata.channel + 1
  · by_cases hb : (getBuffer s.bufs msg.metadata.channel).any
        (fun m => m.metadata.messageNumber = msg.metadata.messageNumber)
    · rw [submit_gap_already s msg hd hg hb] at h
      cases h
    · rw [submit_gap_insert s msg hd hg hb] at h
      cases h
  cases hp : processMessage s.db msg with
  | error e1 =>
    rw [submit_inorder_procerr s msg e1 hd hg hp]
    exact ⟨rfl, fun c => List.Sublist.refl _⟩
  | ok db1 =>
    have heq := submit_inorder_ok s msg db1 hd hg hp
    rcases hdr : drainLoop msg.metadata.channel
        ((getBuffer s.bufs msg.metadata.channel).length + 1)
        (updateRocket db1 msg.metadata.channel
          (fun r => { r with lastMessageNumber := msg.metadata.messageNumber }))
        s.bufs msg.metadata.messageNumber with ⟨db3, bufs3, r3⟩
    rw [hdr] at heq
    cases r3 with
    | none =>
      have heq2 : UpdateRocketState s msg = ({ db := db3, bufs := bufs3 }, none) := heq
      rw [heq2] at h
      cases h
    | some e1 =>
      have heq2 : UpdateRocketState s msg = ({ db := s.db, bufs := bufs3 }, some e1) := heq
      rw [heq2]
      refine ⟨rfl, fun c => ?_⟩
      have hs := drainLoop_buffer_sublist msg.metadata.channel
        ((getBuffer s.bufs msg.metadata.channel).length + 1)
        (updateRocket db1 msg.metadata.channel
          (fun r => { r with lastMessageNumber := msg.metadata.messageNumber }))
        s.bufs msg.metadata.messageNumber c
      rw [hdr] at hs
      exact hs

/-- Witness for `submit_error_rollback` at the crash scenario. -/
theorem submit_error_rollback_witness :
    (UpdateRocketState crashState (speedIncMsg "K" 2 50)).2 =
      some "invalid message type: Bogus" ∧
    ((UpdateRocketState crashState (speedIncMsg "K" 2 50)).1.db = crashState.db ∧
      ∀ c, ((getBuffer (UpdateRocketState crashState (speedIncMsg "K" 2 50)).1.bufs c).Sublist
        (getBuffer crashState.bufs c))) :=
  ⟨by decide,
   submit_error_rollback crashState (speedIncMsg "K" 2 50)
     "invalid message type: Bogus" (by decide)⟩

/-! ### Claim C10: non-Launched first event on a fresh key -/

theorem getNextMessage_of_empty (bufs : Buffers) (c : String) (j : Int)
    (h : getBuffer bufs c = []) : getNextMessage bufs c j = none := by
  unfold getNextMessage
  rw [h]
  rfl

theorem drainLoop_empty (channel : String) (fuel : Nat) (db : DB) (bufs : Buffers)
    (lmn : Int) (h : getBuffer bufs channel = []) :
    drainLoop channel (fuel + 1) db bufs lmn = (db, bufs, none) := by
  rw [drainLoop, getNextMessage_of_empty bufs channel _ h]

/-- C10: for a key with no aggregate row (and nothing buffered),
submitting an in-order event of sequence 1 of any registered kind other
than Launched returns success yet creates no row and leaves the
watermark at 0 — the transition and the watermark write are UPDATEs
matching no row — and a later event with the same sequence number 1 is
processed again rather than discarded as a duplicate: a subsequent
Launched at sequence 1 creates the row. -/
theorem nonlaunched_first_event_no_row (s : SysState) (msg : RocketMessage)
    (hch : findRocket s.db msg.metadata.channel = none)
    (hbuf : getBuffer s.bufs msg.metadata.channel = [])
    (hn : msg.metadata.messageNumber = 1)
    (hk : msg.metadata.messageType ∈
      ["RocketSpeedIncreased", "RocketSpeedDecreased", "RocketExploded",
       "RocketMissionChanged"])
    (hw : msg.message.wellFormed = true) :
    UpdateRocketState s msg = (s, none) ∧
    findRocket (UpdateRocketState s msg).1.db msg.metadata.channel = none ∧
    lastMessageNumberOf (UpdateRocketState s msg).1.db msg.metadata.channel = 0 ∧
    ∀ msg', msg'.metadata.channel = msg.metadata.channel →
      msg'.metadata.messageNumber = 1 →
      msg'.metadata.messageType = "RocketLaunched" →
      msg'.message.wellFormed = true →
      (findRocket (UpdateRocketState (UpdateRocketState s msg).1 msg').1.db
        msg.metadata.channel).isSome := by
  have hk' : msg.metadata.messageType ∈ registeredKinds := by
    simp only [registeredKinds, List.mem_cons, List.not_mem_nil, or_false] at hk ⊢
    tauto
  have hkl : msg.metadata.messageType ≠ "RocketLaunched" := by
    simp only [List.mem_cons, List.not_mem_nil, or_false] at hk
    rcases hk with h | h | h | h <;> rw [h] <;> decide
  have hw0 : lastMessageNumberOf s.db msg.metadata.channel = 0 := by
    rw [lastMessageNumberOf, hch]
  rcases processMessage_ok_of_valid s.db msg hk' hw with ⟨db1, hp⟩
  have hdb1 : db1 = s.db := processMessage_no_row s.db db1 msg hp hch hkl
  subst hdb1
  have hupd : updateRocket s.db msg.metadata.channel
      (fun r => { r with lastMessageNumber := msg.metadata.messageNumber }) = s.db :=
    updateRocket_no_row s.db msg.metadata.channel _ hch
  have hmain : UpdateRocketState s msg = (s, none) := by
    rw [submit_inorder_ok s msg s.db (by omega) (by omega) hp, hupd,
      drainLoop_empty msg.metadata.channel _ s.db s.bufs _ hbuf]
  refine ⟨hmain, by rw [hmain]; exact hch, by rw [hmain]; exact hw0, ?_⟩
  intro msg' hc' hn' ht' hw'
  rw [hmain]
  have hw0' : lastMessageNumberOf s.db msg'.metadata.channel = 0 := by rw [hc']; exact hw0
  rcases processMessage_ok_of_valid s.db msg' (by rw [ht']; decide) hw' with ⟨db1', hp'⟩
  rw [submit_inorder_ok s msg' db1' (by omega) (by omega) hp',
    drainLoop_empty msg'.metadata.channel _ _ s.bufs _ (by rw [hc']; exact hbuf)]
  have hpres := processMessage_launched_presence s.db db1' msg' hp' ht'
  have hgoal : (findRocket (updateRocket db1' msg'.metadata.channel
      (fun r => { r with lastMessageNumber := msg'.metadata.messageNumber }))
      msg.metadata.channel).isSome := by
    rw [← hc', findRocket_updateRocket_self]
    simpa using hpres
  exact hgoal

/-- Witness for `nonlaunched_first_event_no_row`: SpeedIncreased(seq 1)
on the empty deployment, then Launched(seq 1). -/
theorem nonlaunched_first_event_no_row_witness :
    findRocket initialState.db "K" = none ∧
    getBuffer initialState.bufs "K" = [] ∧
    (UpdateRocketState initialState (speedIncMsg "K" 1 100) = (initialState, none) ∧
     findRocket (UpdateRocketState initialState (speedIncMsg "K" 1 100)).1.db "K" = none ∧
     lastMessageNumberOf
       (UpdateRocketState initialState (speedIncMsg "K" 1 100)).1.db "K" = 0 ∧
     (findRocket (UpdateRocketState
         (UpdateRocketState initialState (speedIncMsg "K" 1 100)).1
         (launchedMsg "K" 1 "Falcon-9" 500 "ARTEMIS")).1.db "K").isSome) := by
  refine ⟨by decide, by decide, ?_⟩
  have h := nonlaunched_first_event_no_row initialState (speedIncMsg "K" 1 100)
    (by decide) (by decide) (by decide) (by decide) (by decide)
  exact ⟨h.1, h.2.1, h.2.2.1,
    h.2.2.2 (launchedMsg "K" 1 "Falcon-9" 500 "ARTEMIS") rfl rfl rfl rfl⟩

/-! ### Claim C8: the watermark starts at 0 and never decreases -/

theorem lastMessageNumberOf_stamp (db1 : DB) (ch : String) (n : Int) :
    (findRocket (updateRocket db1 ch
      (fun r => { r with lastMessageNumber := n })) ch).isSome →
    lastMessageNumberOf (updateRocket db1 ch
      (fun r => { r with lastMessageNumber := n })) ch = n := by
  intro hs
  rw [lastMessageNumberOf, findRocket_updateRocket_self]
  cases h1 : findRocket db1 ch with
  | none =>
    rw [findRocket_updateRocket_self, h1] at hs
    cases hs
  | some r => simp [h1]

/-- C8: a key with no aggregate row reads watermark 0, and whatever a
Submit call's outcome — apply, buffer, duplicate discard, or error —
the persisted watermark of every key never decreases across the call.
(The hypothesis states the structural fact that buffered messages sit
under their own channel's buffer, which every engine-built state
satisfies.) -/
theorem watermark_monotone (s : SysState) (msg : RocketMessage) (c : String)
    (hwk : wellKeyed s.bufs) :
    (∀ db0 : DB, findRocket db0 c = none → lastMessageNumberOf db0 c = 0) ∧
    lastMessageNumberOf s.db c ≤ lastMessageNumberOf (UpdateRocketState s msg).1.db c := by
  refine ⟨fun db0 h0 => by rw [lastMessageNumberOf, h0], ?_⟩
  by_cases hd : msg.metadata.messageNumber ≤ lastMessageNumberOf s.db msg.metadata.channel
  · rw [submit_duplicate s msg hd]
  by_cases hg : msg.metadata.messageNumber > lastMessageNumberOf s.db msg.metadata.channel + 1
  · by_cases hb : (getBuffer s.bufs msg.metadata.channel).any
        (fun m => m.metadata.messageNumber = msg.metadata.messageNumber)
    · rw [submit_gap_already s msg hd hg hb]
    · rw [submit_gap_insert s msg hd hg hb]
  cases hp : processMessage s.db msg with
  | error e => rw [submit_inorder_procerr s msg e hd hg hp]
  | ok db1 =>
    have heq := submit_inorder_ok s msg db1 hd hg hp
    rcases hdr : drainLoop msg.metadata.channel
        ((getBuffer s.bufs msg.metadata.channel).length + 1)
        (updateRocket db1 msg.metadata.channel
          (fun r => { r with lastMessageNumber := msg.metadata.messageNumber }))
        s.bufs msg.metadata.messageNumber with ⟨db3, bufs3, r3⟩
    rw [hdr] at heq
    cases r3 with
    | some e =>
      have heq2 : UpdateRocketState s msg = ({ db := s.db, bufs := bufs3 }, some e) := heq
      rw [heq2]
    | none =>
      have heq2 : UpdateRocketState s msg = ({ db := db3, bufs := bufs3 }, none) := heq
      rw [heq2]
      by_cases hc : c = msg.metadata.channel
      · rw [hc]
        rcases drainLoop_ok_spec msg.metadata.channel _ _ s.bufs
            msg.metadata.messageNumber db3 bufs3 (by omega)
            (lastMessageNumberOf_stamp db1 msg.metadata.channel
              msg.metadata.messageNumber)
            hdr with ⟨L, hL, _, hpres, hwmL, _⟩
        cases hrow : findRocket db3 msg.metadata.channel with
        | none =>
          have hnone : findRocket s.db msg.metadata.channel = none := by
            cases hsrow : findRocket s.db msg.metadata.channel with
            | none => rfl
            | some r =>
              have h1 : (findRocket (updateRocket db1 msg.metadata.channel
                  (fun r => { r with lastMessageNumber := msg.metadata.messageNumber }))
                  msg.metadata.channel).isSome := by
                rw [findRocket_updateRocket_self]
                have h2 := processMessage_presence_any s.db db1 msg
                  msg.metadata.channel hp (by rw [hsrow]; rfl)
                simpa using h2
              have h3 := hpres h1
              rw [hrow] at h3
              cases h3
          show lastMessageNumberOf s.db msg.metadata.channel ≤
            lastMessageNumberOf db3 msg.metadata.channel
          rw [lastMessageNumberOf, hnone, lastMessageNumberOf, hrow]
        | some r =>
          have hL3 : lastMessageNumberOf db3 msg.metadata.channel = L :=
            hwmL (by rw [hrow]; rfl)
          show lastMessageNumberOf s.db msg.metadata.channel ≤
            lastMessageNumberOf db3 msg.metadata.channel
          rw [hL3]
          omega
      · have h3 := drainLoop_db_ne msg.metadata.channel
          ((getBuffer s.bufs msg.metadata.channel).length + 1)
          (updateRocket db1 msg.metadata.channel
            (fun r => { r with lastMessageNumber := msg.metadata.messageNumber }))
          s.bufs msg.metadata.messageNumber c hwk hc
        rw [hdr] at h3
        have h2 : findRocket (updateRocket db1 msg.metadata.channel
            (fun r => { r with lastMessageNumber := msg.metadata.messageNumber })) c =
            findRocket s.db c := by
          rw [findRocket_updateRocket_ne _ _ _ _ hc]
          exact findRocket_processMessage_ne s.db db1 msg c hp hc
        show lastMessageNumberOf s.db c ≤ lastMessageNumberOf db3 c
        rw [lastMessageNumberOf, lastMessageNumberOf]
        rw [show findRocket db3 c = findRocket s.db c from h3.trans h2]

/-- Witness for `watermark_monotone`: launching on the empty deployment. -/
theorem watermark_monotone_witness :
    wellKeyed initialState.bufs ∧
    ((∀ db0 : DB, findRocket db0 "K" = none → lastMessageNumberOf db0 "K" = 0) ∧
     lastMessageNumberOf initialState.db "K" ≤
       lastMessageNumberOf (UpdateRocketState initialState
         (launchedMsg "K" 1 "Falcon-9" 500 "ARTEMIS")).1.db "K") :=
  ⟨by decide,
   watermark_monotone initialState (launchedMsg "K" 1 "Falcon-9" 500 "ARTEMIS") "K"
     (by decide)⟩

/-! ### Claim C5: the clamp law and speed nonnegativity -/

/-- Every persisted speed is nonnegative. -/
def speedsNonNeg (db : DB) : Prop := ∀ p ∈ db, 0 ≤ p.2.speed

/-- The payload amounts a transition can add are nonnegative. -/
def payloadNonNeg (m : RocketMessage) : Prop :=
  0 ≤ m.message.launchSpeed ∧ 0 ≤ m.message.by_

/-- Every buffered payload has nonnegative amounts. -/
def buffersNonNeg (bufs : Buffers) : Prop := ∀ b ∈ bufs, ∀ m ∈ b.2, payloadNonNeg m

instance (db : DB) : Decidable (speedsNonNeg db) := by
  unfold speedsNonNeg
  infer_instance

instance (m : RocketMessage) : Decidable (payloadNonNeg m) := by
  unfold payloadNonNeg
  infer_instance

instance (bufs : Buffers) : Decidable (buffersNonNeg bufs) := by
  unfold buffersNonNeg payloadNonNeg
  infer_instance

theorem speedsNonNeg_updateRocket (db : DB) (c : String) (f : Rocket → Rocket)
    (hdb : speedsNonNeg db) (hf : ∀ r, 0 ≤ r.speed → 0 ≤ (f r).speed) :
    speedsNonNeg (updateRocket db c f) := by
  intro p hp
  rcases List.mem_map.mp hp with ⟨q, hq, hpq⟩
  by_cases hqc : q.1 = c
  · rw [if_pos hqc] at hpq
    rw [← hpq]
    exact hf q.2 (hdb q hq)
  · rw [if_neg hqc] at hpq
    rw [← hpq]
    exact hdb q hq

theorem speedsNonNeg_upsertRocket (db : DB) (c : String) (r : Rocket)
    (hdb : speedsNonNeg db) (hr : 0 ≤ r.speed) :
    speedsNonNeg (upsertRocket db c r) := by
  unfold upsertRocket
  split
  · exact speedsNonNeg_updateRocket db c _ hdb (fun _ _ => hr)
  · intro p hp
    rcases List.mem_append.mp hp with h | h
    · exact hdb p h
    · rw [List.mem_singleton.mp h]
      exact hr

theorem speedsNonNeg_processMessage (db db1 : DB) (msg : RocketMessage)
    (hok : processMessage db msg = .ok db1)
    (hdb : speedsNonNeg db) (hm : payloadNonNeg msg) : speedsNonNeg db1 := by
  rcases processMessage_ok_spec db db1 msg hok with ⟨_, rfl⟩ | ⟨_, f, rfl, _, hf⟩
  · exact speedsNonNeg_upsertRocket db _ _ hdb hm.1
  · exact speedsNonNeg_updateRocket db _ f hdb (fun r h => hf r h hm.2)

theorem buffersNonNeg_removeMessage (bufs : Buffers) (c : String) (n : Int)
    (hb : buffersNonNeg bufs) : buffersNonNeg (removeMessage bufs c n) := by
  intro b hbm m hm
  rcases mem_setBuffer _ _ _ b hbm with rfl | h
  · have hmm := List.mem_of_mem_filter hm
    rcases mem_getBuffer bufs c m hmm with ⟨b0, hb0, _, hmb0⟩
    exact hb b0 hb0 m hmb0
  · exact hb b h m hm

theorem drainLoop_nonneg (channel : String) :
    ∀ (fuel : Nat) (db : DB) (bufs : Buffers) (lmn : Int),
      speedsNonNeg db → buffersNonNeg bufs →
      speedsNonNeg (drainLoop channel fuel db bufs lmn).1 ∧
      buffersNonNeg (drainLoop channel fuel db bufs lmn).2.1 := by
  intro fuel
  induction fuel with
  | zero => intro db bufs lmn hdb hb; exact ⟨hdb, hb⟩
  | succ fuel ih =>
    intro db bufs lmn hdb hb
    rw [drainLoop]
    cases hn : getNextMessage bufs channel (lmn + 1) with
    | none => exact ⟨hdb, hb⟩
    | some nextMsg =>
      have hnext : payloadNonNeg nextMsg := by
        have hmem : nextMsg ∈ getBuffer bufs channel := List.mem_of_find?_eq_some hn
        rcases mem_getBuffer bufs channel nextMsg hmem with ⟨b0, hb0, _, hmb0⟩
        exact hb b0 hb0 nextMsg hmb0
      have hb' := buffersNonNeg_removeMessage bufs channel
        nextMsg.metadata.messageNumber hb
      simp only []
      split
      · exact ih db _ lmn hdb hb'
      · cases hp : processMessage db nextMsg with
        | error e => exact ⟨hdb, hb'⟩
        | ok db1 =>
          have hdb1 := speedsNonNeg_processMessage db db1 nextMsg hp hdb hnext
          exact ih _ _ _
            (speedsNonNeg_updateRocket db1 channel _ hdb1 (fun r h => h)) hb'

/-- C5 (counterexample): numericValue can go negative — a SpeedIncreased
transition with a negative delta (decoded from `{"by":-600}`) drives a
speed of 500 to -100, so "after any sequence of applied transitions,
numericValue is never negative" fails. -/
theorem negative_speed_counterexample :
    (findRocket (submitList initialState
        [launchedMsg "K" 1 "Falcon-9" 500 "ARTEMIS", speedIncMsg "K" 2 (-600)]).db
      "K").map (fun r => r.speed) = some (-100) ∧ ((-100 : Int) < 0) := by
  decide

/-- C5 (amended): SpeedDecreased with delta d sets numericValue to
max(0, v - d) exactly; and provided every payload amount involved is
nonnegative (launch speeds and increase deltas — as in every payload the
producer sends in the tests), speeds stay nonnegative across any Submit:
in particular repeated SpeedDecreased transitions clamp at zero and
never drive numericValue below 0. -/
theorem speed_clamp_and_nonneg :
    (∀ (db : DB) (c : String) (n : Int) (m : JsonVal), m.wellFormed = true →
      rocketSpeedDecreasedProcess db c n m = .ok (updateRocket db c (fun r =>
        { r with speed := max 0 (r.speed - m.by_), lastMessageNumber := n }))) ∧
    (∀ (s : SysState) (msg : RocketMessage),
      speedsNonNeg s.db → buffersNonNeg s.bufs → payloadNonNeg msg →
      speedsNonNeg (UpdateRocketState s msg).1.db ∧
      buffersNonNeg (UpdateRocketState s msg).1.bufs) := by
  constructor
  · intro db c n m hw
    have hfun : (fun r : Rocket =>
        { r with speed := if r.speed - m.by_ < 0 then 0 else r.speed - m.by_,
                 lastMessageNumber := n }) =
        (fun r : Rocket =>
          { r with speed := max 0 (r.speed - m.by_), lastMessageNumber := n }) := by
      funext r
      have hsp : (if r.speed - m.by_ < 0 then 0 else r.speed - m.by_) =
          max 0 (r.speed - m.by_) := by
        split <;> omega
      rw [hsp]
    rw [rocketSpeedDecreasedProcess, if_pos (by simp [hw]), hfun]
  · intro s msg hdb hbuf hm
    by_cases hd : msg.metadata.messageNumber ≤ lastMessageNumberOf s.db msg.metadata.channel
    · rw [submit_duplicate s msg hd]
      exact ⟨hdb, hbuf⟩
    by_cases hg : msg.metadata.messageNumber >
        lastMessageNumberOf s.db msg.metadata.channel + 1
    · by_cases hb : (getBuffer s.bufs msg.metadata.channel).any
          (fun m => m.metadata.messageNumber = msg.metadata.messageNumber)
      · rw [submit_gap_already s msg hd hg hb]
        exact ⟨hdb, hbuf⟩
      · rw [submit_gap_insert s msg hd hg hb]
        refine ⟨hdb, ?_⟩
        intro b hbm m0 hm0
        rcases mem_setBuffer _ _ _ b hbm with rfl | h
        · rcases List.mem_append.mp
              ((sortByNumber_perm _).mem_iff.mp hm0) with h0 | h0
          · rcases mem_getBuffer s.bufs msg.metadata.channel m0 h0 with ⟨b0, hb0, _, hmb0⟩
            exact hbuf b0 hb0 m0 hmb0
          · rw [List.mem_singleton.mp h0]
            exact hm
        · exact hbuf b h m0 hm0
    cases hp : processMessage s.db msg with
    | error e =>
      rw [submit_inorder_procerr s msg e hd hg hp]
      exact ⟨hdb, hbuf⟩
    | ok db1 =>
      have heq := submit_inorder_ok s msg db1 hd hg hp
      rcases hdr : drainLoop msg.metadata.channel
          ((getBuffer s.bufs msg.metadata.channel).length + 1)
          (updateRocket db1 msg.metadata.channel
            (fun r => { r with lastMessageNumber := msg.metadata.messageNumber }))
          s.bufs msg.metadata.messageNumber with ⟨db3, bufs3, r3⟩
      rw [hdr] at heq
      have hdb1 := speedsNonNeg_processMessage s.db db1 msg hp hdb hm
      have hdrain := drainLoop_nonneg msg.metadata.channel
        ((getBuffer s.bufs msg.metadata.channel).length + 1)
        (updateRocket db1 msg.metadata.channel
          (fun r => { r with lastMessageNumber := msg.metadata.messageNumber }))
        s.bufs msg.metadata.messageNumber
        (speedsNonNeg_updateRocket db1 msg.metadata.channel _ hdb1 (fun r h => h))
        hbuf
      rw [hdr] at hdrain
      cases r3 with
      | none =>
        have heq2 : UpdateRocketState s msg = ({ db := db3, bufs := bufs3 }, none) := heq
        rw [heq2]
        exact hdrain
      | some e =>
        have heq2 : UpdateRocketState s msg = ({ db := s.db, bufs := bufs3 }, some e) := heq
        rw [heq2]
        exact ⟨hdb, hdrain.2⟩

/-- Witness for `speed_clamp_and_nonneg`: the clamp at a concrete row
and the invariant across a concrete launch. -/
theorem speed_clamp_and_nonneg_witness :
    (rocketSpeedDecreasedProcess [("K", r500)] "K" 2 { payloadZero with by_ := 600 } =
      .ok (updateRocket [("K", r500)] "K" (fun r =>
        { r with speed := max 0 (r.speed - ({ payloadZero with by_ := 600 } : JsonVal).by_),
                 lastMessageNumber := 2 }))) ∧
    (speedsNonNeg (UpdateRocketState initialState
        (launchedMsg "K" 1 "Falcon-9" 500 "ARTEMIS")).1.db ∧
     buffersNonNeg (UpdateRocketState initialState
        (launchedMsg "K" 1 "Falcon-9" 500 "ARTEMIS")).1.bufs) :=
  ⟨speed_clamp_and_nonneg.1 [("K", r500)] "K" 2 { payloadZero with by_ := 600 } (by decide),
   speed_clamp_and_nonneg.2 initialState (launchedMsg "K" 1 "Falcon-9" 500 "ARTEMIS")
     (by decide) (by decide) (by decide)⟩

/-! ### Claim C9: the reorder-buffer invariant -/

theorem pairwise_lt_of_le_of_nodup (l : List RocketMessage)
    (hle : l.Pairwise (fun a b => msgNum a ≤ msgNum b))
    (hnd : (l.map msgNum).Nodup) :
    l.Pairwise (fun a b => msgNum a < msgNum b) := by
  have hne : l.Pairwise (fun a b => msgNum a ≠ msgNum b) := List.pairwise_map.mp hnd
  exact (hle.and hne).imp (fun h => lt_of_le_of_ne h.1 h.2)

theorem nodupNums_of_pairwise_lt (l : List RocketMessage)
    (h : l.Pairwise (fun a b => msgNum a < msgNum b)) : (l.map msgNum).Nodup :=
  List.pairwise_map.mpr (h.imp fun h' => ne_of_lt h')

theorem mem_getBuffer_channel (bufs : Buffers) (c : String) (m : RocketMessage)
    (hk : wellKeyed bufs) (hm : m ∈ getBuffer bufs c) : m.metadata.channel = c := by
  rcases mem_getBuffer bufs c m hm with ⟨b, hb, hbc, hmb⟩
  rw [← hbc]
  exact hk b hb m hmb

theorem drainLoop_wellKeyed (channel : String) :
    ∀ (fuel : Nat) (db : DB) (bufs : Buffers) (lmn : Int), wellKeyed bufs →
      wellKeyed (drainLoop channel fuel db bufs lmn).2.1 := by
  intro fuel
  induction fuel with
  | zero => intro db bufs lmn hk; exact hk
  | succ fuel ih =>
    intro db bufs lmn hk
    rw [drainLoop]
    cases hn : getNextMessage bufs channel (lmn + 1) with
    | none => exact hk
    | some nextMsg =>
      have hk' := wellKeyed_removeMessage bufs channel nextMsg.metadata.messageNumber hk
      simp only []
      split
      · exact ih _ _ _ hk'
      · cases hp : processMessage db nextMsg with
        | error e => exact hk'
        | ok db1 => exact ih _ _ _ hk'

/-- Between Submit calls the engine's buffers satisfy: well-keyed,
strictly ascending per key (hence deduplicated by sequence number), and
every buffered sequence number strictly exceeds the key's persisted
watermark plus one. -/
def bufferInvariant (s : SysState) : Prop :=
  wellKeyed s.bufs ∧
  ∀ c : String,
    (getBuffer s.bufs c).Pairwise (fun a b => msgNum a < msgNum b) ∧
    ∀ m ∈ getBuffer s.bufs c, lastMessageNumberOf s.db c + 1 < msgNum m

/-- C9: the reorder-buffer invariant holds initially and is preserved
by every Submit call: each per-key buffer holds only events whose
sequence number strictly exceeds watermark + 1, at most one entry per
sequence number, kept sorted ascending; entries are removed as the
watermark advances past them. -/
theorem buffer_invariant_preserved (s : SysState) (msg : RocketMessage)
    (hinv : bufferInvariant s) :
    bufferInvariant initialState ∧ bufferInvariant (UpdateRocketState s msg).1 := by
  have hinit : bufferInvariant initialState := by
    refine ⟨fun b hb => absurd hb (List.not_mem_nil b), fun c => ?_⟩
    show (getBuffer [] c).Pairwise _ ∧ ∀ m ∈ getBuffer [] c, _
    exact ⟨List.Pairwise.nil, fun m hm => absurd hm (List.not_mem_nil m)⟩
  refine ⟨hinit, ?_⟩
  rcases hinv with ⟨hwk, hbnd⟩
  by_cases hd : msg.metadata.messageNumber ≤ lastMessageNumberOf s.db msg.metadata.channel
  · rw [submit_duplicate s msg hd]
    exact ⟨hwk, hbnd⟩
  by_cases hg : msg.metadata.messageNumber >
      lastMessageNumberOf s.db msg.metadata.channel + 1
  · by_cases hb : (getBuffer s.bufs msg.metadata.channel).any
        (fun m => m.metadata.messageNumber = msg.metadata.messageNumber)
    · rw [submit_gap_already s msg hd hg hb]
      exact ⟨hwk, hbnd⟩
    · rw [submit_gap_insert s msg hd hg hb]
      have hfresh : ∀ m ∈ getBuffer s.bufs msg.metadata.channel,
          msgNum m ≠ msgNum msg := by
        intro m hm heq
        refine hb ?_
        rw [List.any_eq_true]
        exact ⟨m, hm, by unfold msgNum at heq; simp [heq]⟩
      refine ⟨?_, ?_⟩
      · refine wellKeyed_setBuffer s.bufs msg.metadata.channel _ hwk ?_
        intro m hm
        rcases List.mem_append.mp ((sortByNumber_perm _).mem_iff.mp hm) with h0 | h0
        · exact mem_getBuffer_channel s.bufs msg.metadata.channel m hwk h0
        · rw [List.mem_singleton.mp h0]
      · intro c
        by_cases hc : c = msg.metadata.channel
        · rw [hc, getBuffer_setBuffer]
          constructor
          · refine pairwise_lt_of_le_of_nodup _ (sortByNumber_sorted _) ?_
            refine ((sortByNumber_perm _).map msgNum).nodup_iff.mpr ?_
            rw [List.map_append]
            refine List.Nodup.append
              (nodupNums_of_pairwise_lt _ (hbnd msg.metadata.channel).1) (by simp) ?_
            intro x hx hx'
            rcases List.mem_map.mp hx with ⟨m, hm, rfl⟩
            rcases List.mem_map.mp hx' with ⟨m', hm', hmm⟩
            rw [List.mem_singleton.mp hm'] at hmm
            exact hfresh m hm hmm.symm
          · intro m hm
            rcases List.mem_append.mp ((sortByNumber_perm _).mem_iff.mp hm) with h0 | h0
            · exact (hbnd msg.metadata.channel).2 m h0
            · rw [List.mem_singleton.mp h0]
              show lastMessageNumberOf s.db msg.metadata.channel + 1 < msgNum msg
              unfold msgNum
              omega
        · rw [getBuffer_setBuffer_ne _ _ _ _ hc]
          exact hbnd c
  cases hp : processMessage s.db msg with
  | error e =>
    rw [submit_inorder_procerr s msg e hd hg hp]
    exact ⟨hwk, hbnd⟩
  | ok db1 =>
    have heq := submit_inorder_ok s msg db1 hd hg hp
    rcases hdr : drainLoop msg.metadata.channel
        ((getBuffer s.bufs msg.metadata.channel).length + 1)
        (updateRocket db1 msg.metadata.channel
          (fun r => { r with lastMessageNumber := msg.metadata.messageNumber }))
        s.bufs msg.metadata.messageNumber with ⟨db3, bufs3, r3⟩
    rw [hdr] at heq
    have hwk3 : wellKeyed bufs3 := by
      have := drainLoop_wellKeyed msg.metadata.channel
        ((getBuffer s.bufs msg.metadata.channel).length + 1)
        (updateRocket db1 msg.metadata.channel
          (fun r => { r with lastMessageNumber := msg.metadata.messageNumber }))
        s.bufs msg.metadata.messageNumber hwk
      rw [hdr] at this
      exact this
    have hsub : ∀ c, (getBuffer bufs3 c).Sublist (getBuffer s.bufs c) := by
      intro c
      have := drainLoop_buffer_sublist msg.metadata.channel
        ((getBuffer s.bufs msg.metadata.channel).length + 1)
        (updateRocket db1 msg.metadata.channel
          (fun r => { r with lastMessageNumber := msg.metadata.messageNumber }))
        s.bufs msg.metadata.messageNumber c
      rw [hdr] at this
      exact this
    have hne3 : ∀ c, c ≠ msg.metadata.channel →
        getBuffer bufs3 c = getBuffer s.bufs c := by
      intro c hc
      have := drainLoop_buffer_ne msg.metadata.channel
        ((getBuffer s.bufs msg.metadata.channel).length + 1)
        (updateRocket db1 msg.metadata.channel
          (fun r => { r with lastMessageNumber := msg.metadata.messageNumber }))
        s.bufs msg.metadata.messageNumber c hc
      rw [hdr] at this
      exact this
    cases r3 with
    | some e =>
      have heq2 : UpdateRocketState s msg = ({ db := s.db, bufs := bufs3 }, some e) := heq
      rw [heq2]
      refine ⟨hwk3, fun c => ⟨(hbnd c).1.sublist (hsub c), fun m hm =>
        (hbnd c).2 m ((hsub c).mem hm)⟩⟩
    | none =>
      have heq2 : UpdateRocketState s msg = ({ db := db3, bufs := bufs3 }, none) := heq
      rw [heq2]
      rcases drainLoop_ok_spec msg.metadata.channel _ _ s.bufs
          msg.metadata.messageNumber db3 bufs3 (by omega)
          (lastMessageNumberOf_stamp db1 msg.metadata.channel
            msg.metadata.messageNumber) hdr with ⟨L, hL, _, hpres, hwmL, hbold⟩
      refine ⟨hwk3, fun c => ?_⟩
      by_cases hc : c = msg.metadata.channel
      · rw [hc]
        refine ⟨(hbnd msg.metadata.channel).1.sublist (hsub msg.metadata.channel), ?_⟩
        have hmem3 : ∀ m ∈ getBuffer bufs3 msg.metadata.channel, L + 1 < msgNum m := by
          refine hbold ?_
          intro m hm
          have := (hbnd msg.metadata.channel).2 m hm
          omega
        intro m hm
        have hLm := hmem3 m hm
        show lastMessageNumberOf db3 msg.metadata.channel + 1 < msgNum m
        cases hrow : findRocket db3 msg.metadata.channel with
        | some r =>
          have hL3 : lastMessageNumberOf db3 msg.metadata.channel = L :=
            hwmL (by rw [hrow]; rfl)
          rw [hL3]
          omega
        | none =>
          have h0 : lastMessageNumberOf db3 msg.metadata.channel = 0 := by
            rw [lastMessageNumberOf, hrow]
          have hnone : findRocket s.db msg.metadata.channel = none := by
            cases hsrow : findRocket s.db msg.metadata.channel with
            | none => rfl
            | some r =>
              have h1 : (findRocket (updateRocket db1 msg.metadata.channel
                  (fun r => { r with lastMessageNumber := msg.metadata.messageNumber }))
                  msg.metadata.channel).isSome := by
                rw [findRocket_updateRocket_self]
                have h2 := processMessage_presence_any s.db db1 msg
                  msg.metadata.channel hp (by rw [hsrow]; rfl)
                simpa using h2
              have h3 := hpres h1
              rw [hrow] at h3
              cases h3
          have hw0 : lastMessageNumberOf s.db msg.metadata.channel = 0 := by
            rw [lastMessageNumberOf, hnone]
          rw [h0]
          rw [hw0] at hd hg
          omega
      · rw [hne3 c hc]
        have hdb3 : findRocket db3 c = findRocket s.db c := by
          have h3 := drainLoop_db_ne msg.metadata.channel
            ((getBuffer s.bufs msg.metadata.channel).length + 1)
            (updateRocket db1 msg.metadata.channel
              (fun r => { r with lastMessageNumber := msg.metadata.messageNumber }))
            s.bufs msg.metadata.messageNumber c hwk hc
          rw [hdr] at h3
          rw [h3, findRocket_updateRocket_ne _ _ _ _ hc]
          exact findRocket_processMessage_ne s.db db1 msg c hp hc
        refine ⟨(hbnd c).1, fun m hm => ?_⟩
        show lastMessageNumberOf db3 c + 1 < msgNum m
        rw [lastMessageNumberOf, hdb3]
        exact (hbnd c).2 m hm

/-- Witness for `buffer_invariant_preserved`: a state holding one
buffered gap event, with an in-order Launched submitted. -/
theorem buffer_invariant_preserved_witness :
    bufferInvariant { db := [], bufs := [("K", [speedIncMsg "K" 3 200])] } ∧
    (bufferInvariant initialState ∧
     bufferInvariant (UpdateRocketState
       { db := [], bufs := [("K", [speedIncMsg "K" 3 200])] }
       (launchedMsg "K" 1 "Falcon-9" 500 "ARTEMIS")).1) := by
  have hinv : bufferInvariant { db := [], bufs := [("K", [speedIncMsg "K" 3 200])] } := by
    refine ⟨by decide, fun c => ?_⟩
    by_cases hc : c = "K"
    · subst hc
      refine ⟨by decide, by decide⟩
    · have hbk : getBuffer [("K", [speedIncMsg "K" 3 200])] c = [] := by
        unfold getBuffer
        rw [List.find?_cons_of_neg _ (by simpa using Ne.symm hc)]
        rfl
      rw [hbk]
      exact ⟨List.Pairwise.nil, fun m hm => absurd hm (List.not_mem_nil m)⟩
  exact ⟨hinv, buffer_invariant_preserved
    { db := [], bufs := [("K", [speedIncMsg "K" 3 200])] }
    (launchedMsg "K" 1 "Falcon-9" 500 "ARTEMIS") hinv⟩

/-! ### Claim C4: idempotence of Submit -/

theorem processMessage_ok_valid (db db1 : DB) (msg : RocketMessage)
    (hok : processMessage db msg = .ok db1) :
    msg.metadata.messageType ∈ registeredKinds ∧ msg.message.wellFormed = true := by
  unfold processMessage at hok
  split at hok
  case h_1 ht =>
    rw [rocketLaunchedProcess] at hok
    split at hok
    case isTrue hw => exact ⟨by rw [ht]; decide, by simpa using hw⟩
    case isFalse => cases hok
  case h_2 ht =>
    rw [rocketSpeedIncreasedProcess] at hok
    split at hok
    case isTrue hw => exact ⟨by rw [ht]; decide, by simpa using hw⟩
    case isFalse => cases hok
  case h_3 ht =>
    rw [rocketSpeedDecreasedProcess] at hok
    split at hok
    case isTrue hw => exact ⟨by rw [ht]; decide, by simpa using hw⟩
    case isFalse => cases hok
  case h_4 ht =>
    rw [rocketExplodedProcess] at hok
    split at hok
    case isTrue hw => exact ⟨by rw [ht]; decide, by simpa using hw⟩
    case isFalse => cases hok
  case h_5 ht =>
    rw [rocketMissionChangedProcess] at hok
    split at hok
    case isTrue hw => exact ⟨by rw [ht]; decide, by simpa using hw⟩
    case isFalse => cases hok
  case h_6 => cases hok

theorem drainLoop_none_step (channel : String) (fuel : Nat) (db : DB) (bufs : Buffers)
    (lmn : Int) (h : getNextMessage bufs channel (lmn + 1) = none) :
    drainLoop channel (fuel + 1) db bufs lmn = (db, bufs, none) := by
  rw [drainLoop, h]

/-- An in-order call that finds no row for its channel, whose handler is
a no-op, and whose drain finds nothing, returns the state unchanged. -/
theorem submit_inorder_trivial (s : SysState) (msg : RocketMessage) (db1 : DB)
    (h1 : ¬msg.metadata.messageNumber ≤ lastMessageNumberOf s.db msg.metadata.channel)
    (h2 : ¬msg.metadata.messageNumber > lastMessageNumberOf s.db msg.metadata.channel + 1)
    (hp : processMessage s.db msg = .ok db1)
    (hdb1 : db1 = s.db)
    (hrow : findRocket s.db msg.metadata.channel = none)
    (hnm : getNextMessage s.bufs msg.metadata.channel
      (msg.metadata.messageNumber + 1) = none) :
    UpdateRocketState s msg = (s, none) := by
  subst hdb1
  rw [submit_inorder_ok s msg s.db h1 h2 hp,
    updateRocket_no_row s.db msg.metadata.channel _ hrow,
    drainLoop_none_step msg.metadata.channel _ s.db s.bufs _ hnm]

/-- Watermark 1, with an unknown-kind event at sequence 3 buffered (the
gap check precedes the kind check, so this state is reachable by
submitting Bogus(seq 3) after Launched(seq 1)). -/
def poisonState : SysState :=
  { db := [("K", r500)], bufs := [("K", [taggedMsg "K" 3 "Bogus"])] }

/-- C4 (counterexample): with the unknown-kind event buffered at
sequence 3, submitting SpeedIncreased(seq 2) once fails mid-drain and
rolls back (watermark stays 1), but the failing buffered event was
dropped, so submitting the identical event a second time succeeds and
advances the watermark to 2: two submissions do not yield the state of
one. -/
theorem idempotence_counterexample :
    lastMessageNumberOf
      (UpdateRocketState poisonState (speedIncMsg "K" 2 50)).1.db "K" = 1 ∧
    lastMessageNumberOf
      (UpdateRocketState (UpdateRocketState poisonState (speedIncMsg "K" 2 50)).1
        (speedIncMsg "K" 2 50)).1.db "K" = 2 ∧
    (UpdateRocketState (UpdateRocketState poisonState (speedIncMsg "K" 2 50)).1
        (speedIncMsg "K" 2 50)).1.db ≠
      (UpdateRocketState poisonState (speedIncMsg "K" 2 50)).1.db := by
  decide

/-- C4 (amended): an event at or below the watermark is discarded as a
no-op with success and the state untouched; and whenever a Submit call
returns success, submitting the identical event again is a no-op — the
state after two calls is exactly the state after one.  (When the first
call returns an error — a transition failure mid-drain — the second
call may advance further, because the failing buffered event was
dropped; see the counterexample.) -/
theorem submit_idempotent (s : SysState) (msg : RocketMessage) :
    (msg.metadata.messageNumber ≤ lastMessageNumberOf s.db msg.metadata.channel →
      UpdateRocketState s msg = (s, none)) ∧
    ((UpdateRocketState s msg).2 = none →
      UpdateRocketState (UpdateRocketState s msg).1 msg =
        ((UpdateRocketState s msg).1, none)) := by
  refine ⟨fun h => submit_duplicate s msg h, ?_⟩
  intro hok
  by_cases hd : msg.metadata.messageNumber ≤ lastMessageNumberOf s.db msg.metadata.channel
  · rw [submit_duplicate s msg hd]
    exact submit_duplicate s msg hd
  by_cases hg : msg.metadata.messageNumber >
      lastMessageNumberOf s.db msg.metadata.channel + 1
  · by_cases hb : (getBuffer s.bufs msg.metadata.channel).any
        (fun m => m.metadata.messageNumber = msg.metadata.messageNumber)
    · rw [submit_gap_already s msg hd hg hb]
      exact submit_gap_already s msg hd hg hb
    · rw [submit_gap_insert s msg hd hg hb]
      have hb1 : (getBuffer (setBuffer s.bufs msg.metadata.channel
          (sortByNumber (getBuffer s.bufs msg.metadata.channel ++ [msg])))
          msg.metadata.channel).any
          (fun m => m.metadata.messageNumber = msg.metadata.messageNumber) := by
        rw [getBuffer_setBuffer, List.any_eq_true]
        refine ⟨msg, (sortByNumber_perm _).mem_iff.mpr
          (List.mem_append.mpr (Or.inr (List.mem_singleton_self msg))), by simp⟩
      exact submit_gap_already _ msg hd hg hb1
  cases hp : processMessage s.db msg with
  | error e =>
    rw [submit_inorder_procerr s msg e hd hg hp] at hok
    simp at hok
  | ok db1 =>
    have heq := submit_inorder_ok s msg db1 hd hg hp
    rcases hdr : drainLoop msg.metadata.channel
        ((getBuffer s.bufs msg.metadata.channel).length + 1)
        (updateRocket db1 msg.metadata.channel
          (fun r => { r with lastMessageNumber := msg.metadata.messageNumber }))
        s.bufs msg.metadata.messageNumber with ⟨db3, bufs3, r3⟩
    rw [hdr] at heq
    cases r3 with
    | some e =>
      have heq2 : UpdateRocketState s msg = ({ db := s.db, bufs := bufs3 }, some e) := heq
      rw [heq2] at hok
      simp at hok
    | none =>
      have heq2 : UpdateRocketState s msg = ({ db := db3, bufs := bufs3 }, none) := heq
      rw [heq2]
      rcases drainLoop_ok_spec msg.metadata.channel _ _ s.bufs
          msg.metadata.messageNumber db3 bufs3 (by omega)
          (lastMessageNumberOf_stamp db1 msg.metadata.channel
            msg.metadata.messageNumber) hdr with ⟨L, hL, habs, hpres, hwmL, _⟩
      cases hrow : findRocket db3 msg.metadata.channel with
      | some r =>
        have hL3 : lastMessageNumberOf db3 msg.metadata.channel = L :=
          hwmL (by rw [hrow]; rfl)
        refine submit_duplicate _ msg ?_
        show msg.metadata.messageNumber ≤ lastMessageNumberOf db3 msg.metadata.channel
        rw [hL3]
        omega
      | none =>
        have hnoS : findRocket s.db msg.metadata.channel = none := by
          cases hsrow : findRocket s.db msg.metadata.channel with
          | none => rfl
          | some r =>
            have h1 : (findRocket (updateRocket db1 msg.metadata.channel
                (fun r => { r with lastMessageNumber := msg.metadata.messageNumber }))
                msg.metadata.channel).isSome := by
              rw [findRocket_updateRocket_self]
              have h2 := processMessage_presence_any s.db db1 msg
                msg.metadata.channel hp (by rw [hsrow]; rfl)
              simpa using h2
            have h3 := hpres h1
            rw [hrow] at h3
            cases h3
        have hw0 : lastMessageNumberOf s.db msg.metadata.channel = 0 := by
          rw [lastMessageNumberOf, hnoS]
        have hwm3 : lastMessageNumberOf db3 msg.metadata.channel = 0 := by
          rw [lastMessageNumberOf, hrow]
        have hkl : msg.metadata.messageType ≠ "RocketLaunched" := by
          intro hkL
          have h1 := processMessage_launched_presence s.db db1 msg hp hkL
          have h2 : (findRocket (updateRocket db1 msg.metadata.channel
              (fun r => { r with lastMessageNumber := msg.metadata.messageNumber }))
              msg.metadata.channel).isSome := by
            rw [findRocket_updateRocket_self]
            simpa using h1
          have h3 := hpres h2
          rw [hrow] at h3
          cases h3
        rcases processMessage_ok_valid s.db db1 msg hp with ⟨hk, hwf⟩
        rcases processMessage_ok_of_valid db3 msg hk hwf with ⟨db1'', hp''⟩
        have hdb1'' : db1'' = db3 := processMessage_no_row db3 db1'' msg hp'' hrow hkl
        have habs2 : getNextMessage bufs3 msg.metadata.channel
            (msg.metadata.messageNumber + 1) = none :=
          habs (msg.metadata.messageNumber + 1) (by omega) (by omega)
        exact submit_inorder_trivial { db := db3, bufs := bufs3 } msg db1''
          (by show ¬msg.metadata.messageNumber ≤
                lastMessageNumberOf db3 msg.metadata.channel
              rw [hwm3]
              rw [hw0] at hd
              exact hd)
          (by show ¬msg.metadata.messageNumber >
                lastMessageNumberOf db3 msg.metadata.channel + 1
              rw [hwm3]
              rw [hw0] at hg
              exact hg)
          hp'' hdb1'' hrow habs2

/-- Witness for `submit_idempotent`: resubmitting Launched(seq 1) after
a successful first submission. -/
theorem submit_idempotent_witness :
    (UpdateRocketState initialState
      (launchedMsg "K" 1 "Falcon-9" 500 "ARTEMIS")).2 = none ∧
    UpdateRocketState
        (UpdateRocketState initialState (launchedMsg "K" 1 "Falcon-9" 500 "ARTEMIS")).1
        (launchedMsg "K" 1 "Falcon-9" 500 "ARTEMIS") =
      ((UpdateRocketState initialState
        (launchedMsg "K" 1 "Falcon-9" 500 "ARTEMIS")).1, none) :=
  ⟨by decide,
   (submit_idempotent initialState (launchedMsg "K" 1 "Falcon-9" 500 "ARTEMIS")).2
     (by decide)⟩

/-! ### Claim C3: order independence — canonical-state machinery -/

/-- Whether some already-submitted event carries sequence number `j`. -/
def hasNum (q : List RocketMessage) (j : Int) : Bool :=
  q.any (fun m => m.metadata.messageNumber = j)

theorem hasNum_iff (q : List RocketMessage) (j : Int) :
    hasNum q j = true ↔ ∃ m ∈ q, m.metadata.messageNumber = j := by
  unfold hasNum
  rw [List.any_eq_true]
  simp

theorem hasNum_append_iff (q : List RocketMessage) (e : RocketMessage) (j : Int) :
    hasNum (q ++ [e]) j = true ↔
      hasNum q j = true ∨ e.metadata.messageNumber = j := by
  rw [hasNum_iff, hasNum_iff]
  constructor
  · rintro ⟨m, hm, hj⟩
    rcases List.mem_append.mp hm with h | h
    · exact Or.inl ⟨m, h, hj⟩
    · rw [List.mem_singleton.mp h] at hj
      exact Or.inr hj
  · rintro (⟨m, hm, hj⟩ | hj)
    · exact ⟨m, List.mem_append.mpr (Or.inl hm), hj⟩
    · exact ⟨e, List.mem_append.mpr (Or.inr (List.mem_singleton_self e)), hj⟩

/-- The in-transaction effect of one applied event: the handler run
followed by the watermark stamp (no-op on a failing event). -/
def applyEvent (db : DB) (e : RocketMessage) : DB :=
  match processMessage db e with
  | .ok db1 => updateRocket db1 e.metadata.channel
      (fun r => { r with lastMessageNumber := e.metadata.messageNumber })
  | .error _ => db

/-- In-order application of a whole run inside one logical history. -/
def applyList (db : DB) (l : List RocketMessage) : DB := l.foldl applyEvent db

theorem applyEvent_ok (db db1 : DB) (e : RocketMessage)
    (hp : processMessage db e = .ok db1) :
    applyEvent db e = updateRocket db1 e.metadata.channel
      (fun r => { r with lastMessageNumber := e.metadata.messageNumber }) := by
  unfold applyEvent
  rw [hp]

theorem applyList_append (db : DB) (l : List RocketMessage) (e : RocketMessage) :
    applyList db (l ++ [e]) = applyEvent (applyList db l) e := by
  unfold applyList
  rw [List.foldl_append]
  rfl

/-- The largest `k ≤ N` with every sequence number `1..k` already
submitted. -/
def wmOf (q : List RocketMessage) : Nat → Nat
  | 0 => 0
  | n + 1 =>
    if ∀ j : Nat, j < n + 1 → hasNum q ((j : Int) + 1) = true then n + 1 else wmOf q n

theorem wmOf_le (q : List RocketMessage) : ∀ N : Nat, wmOf q N ≤ N := by
  intro N
  induction N with
  | zero => exact le_refl 0
  | succ N ih =>
    rw [wmOf]
    split
    · exact le_refl _
    · omega

theorem wmOf_has (q : List RocketMessage) :
    ∀ (N j : Nat), 1 ≤ j → j ≤ wmOf q N → hasNum q (j : Int) = true := by
  intro N
  induction N with
  | zero => intro j h1 h2; rw [wmOf] at h2; omega
  | succ N ih =>
    intro j h1 h2
    rw [wmOf] at h2
    split at h2
    case isTrue h =>
      have hcast : ((j - 1 : Nat) : Int) + 1 = (j : Int) := by omega
      have := h (j - 1) (by omega)
      rw [hcast] at this
      exact this
    case isFalse h => exact ih j h1 h2

theorem wmOf_stop (q : List RocketMessage) :
    ∀ N : Nat, wmOf q N = N ∨ hasNum q ((wmOf q N : Int) + 1) = false := by
  intro N
  induction N with
  | zero => exact Or.inl rfl
  | succ n ih =>
    rw [wmOf]
    split
    case isTrue h => exact Or.inl rfl
    case isFalse h =>
      rcases ih with hN | hfalse
      · refine Or.inr ?_
        rw [hN]
        by_contra hcon
        refine h ?_
        intro j hj
        by_cases hjn : j = n
        · subst hjn
          cases hx : hasNum q ((j : Int) + 1) with
          | true => rfl
          | false => exact absurd hx hcon
        · have hcast : (((j + 1 : Nat)) : Int) = (j : Int) + 1 := by omega
          have hg := wmOf_has q n (j + 1) (by omega) (by omega)
          rw [hcast] at hg
          exact hg
      · exact Or.inr hfalse

theorem wmOf_ge (q : List RocketMessage) :
    ∀ (N k : Nat), k ≤ N → (∀ j : Nat, 1 ≤ j → j ≤ k → hasNum q (j : Int) = true) →
      k ≤ wmOf q N := by
  intro N
  induction N with
  | zero => intro k hk _; omega
  | succ n ih =>
    intro k hk hall
    rw [wmOf]
    split
    case isTrue h => omega
    case isFalse h =>
      by_cases hkn : k = n + 1
      · exfalso
        refine h ?_
        intro j hj
        have hcast : (((j + 1 : Nat)) : Int) = (j : Int) + 1 := by omega
        have ha := hall (j + 1) (by omega) (by omega)
        rw [hcast] at ha
        exact ha
      · exact ih k (by omega) hall

theorem wmOf_unique (q : List RocketMessage) (N k : Nat) (hk : k ≤ N)
    (hall : ∀ j : Nat, 1 ≤ j → j ≤ k → hasNum q (j : Int) = true)
    (hstop : hasNum q ((k : Int) + 1) = false ∨ k = N) :
    wmOf q N = k := by
  have hge := wmOf_ge q N k hk hall
  by_contra hne
  have hlt : k + 1 ≤ wmOf q N := by omega
  have hhas := wmOf_has q N (k + 1) (by omega) hlt
  rcases hstop with hs | hs
  · have hcast : (((k + 1 : Nat)) : Int) = (k : Int) + 1 := by omega
    rw [hcast, hs] at hhas
    cases hhas
  · have := wmOf_le q N
    omega

theorem wmOf_nil (N : Nat) : wmOf [] N = 0 := by
  refine wmOf_unique [] N 0 (by omega) (by omega) ?_
  by_cases h : N = 0
  · exact Or.inr h.symm
  · refine Or.inl ?_
    cases hx : hasNum [] ((0 : Int) + 1) with
    | false => rfl
    | true =>
      rw [hasNum_iff] at hx
      rcases hx with ⟨m, hm, _⟩
      exact absurd hm (List.not_mem_nil m)

/-- The hypotheses of the order-independence claim, amended: a
contiguous run of valid events with sequence numbers `1..N` for the
channel `c`, whose sequence-1 event (if any) is a Launched event. -/
def goodRun (c : String) (es : List RocketMessage) : Prop :=
  (∀ i : Fin es.length, (es.get i).metadata.messageNumber = ((i : Nat) : Int) + 1) ∧
  (∀ e ∈ es, e.metadata.channel = c ∧ e.metadata.messageType ∈ registeredKinds ∧
    e.message.wellFormed = true) ∧
  (∀ e ∈ es, e.metadata.messageNumber = 1 → e.metadata.messageType = "RocketLaunched")

instance (c : String) (es : List RocketMessage) : Decidable (goodRun c es) := by
  unfold goodRun
  infer_instance

theorem run_mem_num (c : String) (es : List RocketMessage) (hgr : goodRun c es)
    (e : RocketMessage) (he : e ∈ es) :
    ∃ i : Fin es.length, es.get i = e ∧
      e.metadata.messageNumber = ((i : Nat) : Int) + 1 := by
  rcases List.mem_iff_get.mp he with ⟨i, hi⟩
  exact ⟨i, hi, by rw [← hi]; exact hgr.1 i⟩

theorem run_bounds (c : String) (es : List RocketMessage) (hgr : goodRun c es)
    (e : RocketMessage) (he : e ∈ es) :
    1 ≤ e.metadata.messageNumber ∧ e.metadata.messageNumber ≤ (es.length : Int) := by
  rcases run_mem_num c es hgr e he with ⟨i, _, hnum⟩
  have := i.isLt
  omega

theorem run_unique (c : String) (es : List RocketMessage) (hgr : goodRun c es)
    (e e' : RocketMessage) (he : e ∈ es) (he' : e' ∈ es)
    (hnum : e.metadata.messageNumber = e'.metadata.messageNumber) : e = e' := by
  rcases run_mem_num c es hgr e he with ⟨i, hi, hni⟩
  rcases run_mem_num c es hgr e' he' with ⟨i', hi', hni'⟩
  have : (i : Nat) = (i' : Nat) := by omega
  rw [← hi, ← hi']
  congr 1
  exact Fin.ext this

theorem run_get_mem_num (c : String) (es : List RocketMessage) (hgr : goodRun c es)
    (j : Nat) (hj : j < es.length) :
    es.get ⟨j, hj⟩ ∈ es ∧
      (es.get ⟨j, hj⟩).metadata.messageNumber = (j : Int) + 1 :=
  ⟨List.get_mem es j hj, hgr.1 ⟨j, hj⟩⟩

theorem run_hasNum_all (c : String) (es : List RocketMessage) (hgr : goodRun c es)
    (j : Nat) (h1 : 1 ≤ j) (h2 : j ≤ es.length) : hasNum es (j : Int) = true := by
  have hj' : j - 1 < es.length := by omega
  rcases run_get_mem_num c es hgr (j - 1) hj' with ⟨hmem, hnum⟩
  rw [hasNum_iff]
  refine ⟨es.get ⟨j - 1, hj'⟩, hmem, ?_⟩
  rw [hnum]
  omega

theorem run_sorted (c : String) (es : List RocketMessage) (hgr : goodRun c es) :
    es.Pairwise (fun a b => msgNum a < msgNum b) := by
  rw [List.pairwise_iff_get]
  intro i j hij
  have hi := hgr.1 i
  have hj := hgr.1 j
  unfold msgNum
  omega

theorem stamp_facts (db1 : DB) (ch : String) (n : Int)
    (hs : (findRocket db1 ch).isSome) :
    lastMessageNumberOf (updateRocket db1 ch
      (fun r => { r with lastMessageNumber := n })) ch = n ∧
    (findRocket (updateRocket db1 ch
      (fun r => { r with lastMessageNumber := n })) ch).isSome := by
  have hs2 : (findRocket (updateRocket db1 ch
      (fun r => { r with lastMessageNumber := n })) ch).isSome := by
    rw [findRocket_updateRocket_self]
    simpa using hs
  exact ⟨lastMessageNumberOf_stamp db1 ch n hs2, hs2⟩

/-- The canonical database after applying the run's first `w` events in
order: it carries watermark `w`, and holds the row once `w ≥ 1`. -/
theorem canon_db_facts (c : String) (es : List RocketMessage) (hgr : goodRun c es) :
    ∀ w : Nat, w ≤ es.length →
      lastMessageNumberOf (applyList [] (es.take w)) c = (w : Int) ∧
      (1 ≤ w → (findRocket (applyList [] (es.take w)) c).isSome) := by
  intro w
  induction w with
  | zero =>
    intro _
    exact ⟨rfl, by omega⟩
  | succ w ih =>
    intro hw
    have hw' : w ≤ es.length := by omega
    have hwlt : w < es.length := by omega
    rcases ih hw' with ⟨ihwm, ihsome⟩
    have htake : es.take (w + 1) = es.take w ++ [es.get ⟨w, hwlt⟩] := by
      rw [List.take_succ, List.getElem?_eq_getElem hwlt]
      rfl
    have hemem : es.get ⟨w, hwlt⟩ ∈ es := List.get_mem es w hwlt
    have henum : (es.get ⟨w, hwlt⟩).metadata.messageNumber = (w : Int) + 1 :=
      hgr.1 ⟨w, hwlt⟩
    rcases hgr.2.1 _ hemem with ⟨hech, hkind, hwf⟩
    rcases processMessage_ok_of_valid (applyList [] (es.take w)) (es.get ⟨w, hwlt⟩)
      hkind hwf with ⟨db1, hp⟩
    rw [htake, applyList_append, applyEvent_ok _ db1 _ hp]
    have hsome1 : (findRocket db1 c).isSome := by
      rcases processMessage_ok_spec _ db1 _ hp with ⟨_, hdb1⟩ | ⟨hne, _⟩
      · rw [hdb1, hech, findRocket_upsertRocket_self]
        rfl
      · have h1edge : (es.get ⟨w, hwlt⟩).metadata.messageNumber ≠ 1 :=
          fun h => hne (hgr.2.2 _ hemem h)
        have hw1 : 1 ≤ w := by omega
        exact processMessage_presence_any _ db1 _ c hp (ihsome hw1)
    rw [hech]
    rcases stamp_facts db1 c (es.get ⟨w, hwlt⟩).metadata.messageNumber hsome1 with
      ⟨hwm2, hsome2⟩
    refine ⟨?_, fun _ => hsome2⟩
    rw [hwm2, henum]
    omega

theorem take_succ_get (es : List RocketMessage) (v : Nat) (hv : v < es.length) :
    es.take (v + 1) = es.take v ++ [es.get ⟨v, hv⟩] := by
  rw [List.take_succ, List.getElem?_eq_getElem hv]
  rfl

theorem drainLoop_step_ok (channel : String) (fuel : Nat) (db : DB) (bufs : Buffers)
    (lmn : Int) (m : RocketMessage) (db1 : DB)
    (hm : getNextMessage bufs channel (lmn + 1) = some m)
    (hp : processMessage db m = .ok db1) :
    drainLoop channel (fuel + 1) db bufs lmn =
      drainLoop channel fuel
        (updateRocket db1 channel
          (fun r => { r with lastMessageNumber := m.metadata.messageNumber }))
        (removeMessage bufs channel m.metadata.messageNumber)
        m.metadata.messageNumber := by
  have hnum := getNextMessage_num bufs channel (lmn + 1) m hm
  rw [drainLoop, hm]
  simp only []
  rw [if_neg (by omega), hp]

/-- Draining from watermark `v` over a buffer holding exactly the
already-submitted events above `v` applies the contiguous run up to
`wmOf q'` and leaves exactly the still-unapplicable events buffered. -/
theorem canon_drain (c : String) (es : List RocketMessage) (hgr : goodRun c es)
    (q' : List RocketMessage) :
    ∀ (fuel v : Nat) (bufs : Buffers),
      (getBuffer bufs c).length < fuel →
      1 ≤ v → v ≤ es.length →
      (∀ j : Nat, 1 ≤ j → j ≤ v → hasNum q' (j : Int) = true) →
      getBuffer bufs c = es.filter (fun x => hasNum q' x.metadata.messageNumber &&
        decide ((v : Int) < x.metadata.messageNumber)) →
      (∀ c', c' ≠ c → getBuffer bufs c' = []) →
      ∃ bufs', drainLoop c fuel (applyList [] (es.take v)) bufs (v : Int) =
          (applyList [] (es.take (wmOf q' es.length)), bufs', none) ∧
        getBuffer bufs' c = es.filter (fun x => hasNum q' x.metadata.messageNumber &&
          decide ((wmOf q' es.length : Int) < x.metadata.messageNumber)) ∧
        (∀ c', c' ≠ c → getBuffer bufs' c' = []) := by
  intro fuel
  induction fuel with
  | zero => intro v bufs hlen; omega
  | succ fuel ih =>
    intro v bufs hlen h1v hvN hall hbc hbo
    by_cases hvEq : v = es.length
    · have hwm : wmOf q' es.length = v :=
        wmOf_unique q' es.length v (by omega) hall (Or.inr hvEq)
      have hbempty : getBuffer bufs c = [] := by
        rw [hbc, List.filter_eq_nil_iff]
        intro x hx
        rcases run_bounds c es hgr x hx with ⟨_, hub⟩
        simp only [Bool.and_eq_true, decide_eq_true_eq, not_and]
        intro _
        omega
      refine ⟨bufs, ?_, ?_, hbo⟩
      · rw [drainLoop_none_step c fuel _ bufs _
          (getNextMessage_of_empty bufs c _ hbempty), hwm]
      · rw [hwm]
        exact hbc
    · have hvlt : v < es.length := by omega
      cases hnext : hasNum q' ((v : Int) + 1) with
      | false =>
        have hwm : wmOf q' es.length = v :=
          wmOf_unique q' es.length v (by omega) hall (Or.inl hnext)
        have hnone : getNextMessage bufs c ((v : Int) + 1) = none := by
          rw [getNextMessage_eq_none]
          intro m hm hmn
          rw [hbc, List.mem_filter] at hm
          rcases hm with ⟨_, hpred⟩
          simp only [Bool.and_eq_true, decide_eq_true_eq] at hpred
          rw [hmn] at hpred
          rw [hpred.1] at hnext
          cases hnext
        refine ⟨bufs, ?_, ?_, hbo⟩
        · rw [drainLoop_none_step c fuel _ bufs _ hnone, hwm]
        · rw [hwm]
          exact hbc
      | true =>
        have he1mem : es.get ⟨v, hvlt⟩ ∈ es := List.get_mem es v hvlt
        have he1num : (es.get ⟨v, hvlt⟩).metadata.messageNumber = (v : Int) + 1 :=
          hgr.1 ⟨v, hvlt⟩
        rcases hgr.2.1 _ he1mem with ⟨he1ch, he1kind, he1wf⟩
        have he1buf : es.get ⟨v, hvlt⟩ ∈ getBuffer bufs c := by
          rw [hbc, List.mem_filter]
          refine ⟨he1mem, ?_⟩
          simp only [Bool.and_eq_true, decide_eq_true_eq]
          exact ⟨by rw [he1num]; exact hnext, by rw [he1num]; omega⟩
        have hfind : ∃ m, getNextMessage bufs c ((v : Int) + 1) = some m := by
          cases hgm : getNextMessage bufs c ((v : Int) + 1) with
          | some m => exact ⟨m, rfl⟩
          | none =>
            rw [getNextMessage_eq_none] at hgm
            exact absurd he1num (hgm _ he1buf)
        rcases hfind with ⟨m, hm⟩
        have hmnum := getNextMessage_num bufs c _ m hm
        have hmmem : m ∈ getBuffer bufs c := List.mem_of_find?_eq_some hm
        have hmes : m ∈ es := by
          rw [hbc] at hmmem
          exact (List.mem_filter.mp hmmem).1
        have hme1 : m = es.get ⟨v, hvlt⟩ :=
          run_unique c es hgr m _ hmes he1mem (by rw [hmnum, he1num])
        rcases processMessage_ok_of_valid (applyList [] (es.take v)) m
          (by rw [hme1]; exact he1kind) (by rw [hme1]; exact he1wf) with ⟨db1, hp⟩
        have hstep := drainLoop_step_ok c fuel (applyList [] (es.take v)) bufs
          (v : Int) m db1 hm hp
        have htake : es.take (v + 1) = es.take v ++ [es.get ⟨v, hvlt⟩] :=
          take_succ_get es v hvlt
        have hdb2 : updateRocket db1 c
            (fun r => { r with lastMessageNumber := m.metadata.messageNumber }) =
            applyList [] (es.take (v + 1)) := by
          rw [htake, applyList_append, ← hme1, applyEvent_ok _ db1 m hp,
            hme1, he1ch, ← hme1]
        have hcast : ((v + 1 : Nat) : Int) = (v : Int) + 1 := by omega
        have hbufs2 : getBuffer (removeMessage bufs c m.metadata.messageNumber) c =
            es.filter (fun x => hasNum q' x.metadata.messageNumber &&
              decide (((v + 1 : Nat) : Int) < x.metadata.messageNumber)) := by
          rw [getBuffer_removeMessage, hbc, List.filter_filter]
          refine List.filter_congr ?_
          intro x hx
          cases hh : hasNum q' x.metadata.messageNumber with
          | false => simp [hh]
          | true =>
            simp only [hh, Bool.true_and]
            rw [Bool.eq_iff_iff]
            simp only [Bool.and_eq_true, decide_eq_true_eq]
            rw [hmnum]
            omega
        have hall' : ∀ j : Nat, 1 ≤ j → j ≤ v + 1 → hasNum q' (j : Int) = true := by
          intro j hj1 hj2
          by_cases hj : j = v + 1
          · subst hj
            rw [hcast]
            exact hnext
          · exact hall j hj1 (by omega)
        have hlen2 := length_getBuffer_removeMessage_lt bufs c ((v : Int) + 1) m hm
        have hbo2 : ∀ c', c' ≠ c →
            getBuffer (removeMessage bufs c m.metadata.messageNumber) c' = [] := by
          intro c' hc'
          rw [getBuffer_removeMessage_ne bufs c c' _ hc']
          exact hbo c' hc'
        rcases ih (v + 1) (removeMessage bufs c m.metadata.messageNumber)
          (by omega) (by omega) (by omega) hall' hbufs2 hbo2 with
          ⟨bufs', heq, hbc', hbo'⟩
        refine ⟨bufs', ?_, hbc', hbo'⟩
        have hmv : m.metadata.messageNumber = ((v + 1 : Nat) : Int) := by
          rw [hmnum]
          omega
        rw [hstep, hdb2, hmv]
        rw [hmv] at heq
        exact heq

theorem hasNum_append_mono (q : List RocketMessage) (e : RocketMessage) (j : Int)
    (h : hasNum q j = true) : hasNum (q ++ [e]) j = true :=
  (hasNum_append_iff q e j).mpr (Or.inl h)

theorem hasNum_append_irrel (q : List RocketMessage) (e : RocketMessage) (j : Int)
    (hne : e.metadata.messageNumber ≠ j) : hasNum (q ++ [e]) j = hasNum q j := by
  rw [Bool.eq_iff_iff, hasNum_append_iff]
  constructor
  · rintro (h | h)
    · exact h
    · exact absurd h hne
  · exact Or.inl

/-- The canonical state determined by the set of submitted events `q`:
database holding the contiguous prefix applied, buffer holding exactly
the submitted-but-not-yet-applicable events, nothing elsewhere. -/
def canonInv (c : String) (es q : List RocketMessage) (s : SysState) : Prop :=
  s.db = applyList [] (es.take (wmOf q es.length)) ∧
  getBuffer s.bufs c = es.filter (fun x => hasNum q x.metadata.messageNumber &&
    decide ((wmOf q es.length : Int) < x.metadata.messageNumber)) ∧
  ∀ c', c' ≠ c → getBuffer s.bufs c' = []

/-- One Submit call moves a canonical state for `q` to the canonical
state for `q ++ [e]`, whatever the event's position. -/
theorem canon_step (c : String) (es : List RocketMessage) (hgr : goodRun c es)
    (q : List RocketMessage) (e : RocketMessage) (he : e ∈ es)
    (s : SysState) (hinv : canonInv c es q s) :
    canonInv c es (q ++ [e]) (UpdateRocketState s e).1 := by
  rcases hinv with ⟨hdb, hbc, hbo⟩
  have hwN : wmOf q es.length ≤ es.length := wmOf_le q es.length
  rcases run_mem_num c es hgr e he with ⟨i, hie, hnum⟩
  rcases hgr.2.1 e he with ⟨hech, hekind, hewf⟩
  rcases run_bounds c es hgr e he with ⟨helb, heub⟩
  have hwm_se : lastMessageNumberOf s.db e.metadata.channel = (wmOf q es.length : Int) := by
    rw [hech, hdb]
    exact (canon_db_facts c es hgr _ hwN).1
  have hallq : ∀ j : Nat, 1 ≤ j → j ≤ wmOf q es.length → hasNum q (j : Int) = true :=
    fun j a b => wmOf_has q es.length j a b
  have hstopq := wmOf_stop q es.length
  have hwm_ne : e.metadata.messageNumber ≠ (wmOf q es.length : Int) + 1 →
      wmOf (q ++ [e]) es.length = wmOf q es.length := by
    intro hne
    refine wmOf_unique _ es.length _ hwN
      (fun j a b => hasNum_append_mono q e _ (hallq j a b)) ?_
    rcases hstopq with hN | hfalse
    · exact Or.inr hN
    · exact Or.inl (by rw [hasNum_append_irrel q e _ hne]; exact hfalse)
  have hfilter_of : (∀ x ∈ es, (wmOf q es.length : Int) < x.metadata.messageNumber →
      x.metadata.messageNumber = e.metadata.messageNumber →
      hasNum q x.metadata.messageNumber = true) →
      es.filter (fun x => hasNum (q ++ [e]) x.metadata.messageNumber &&
        decide ((wmOf q es.length : Int) < x.metadata.messageNumber)) =
      es.filter (fun x => hasNum q x.metadata.messageNumber &&
        decide ((wmOf q es.length : Int) < x.metadata.messageNumber)) := by
    intro hprem
    refine List.filter_congr ?_
    intro x hx
    by_cases hgt : (wmOf q es.length : Int) < x.metadata.messageNumber
    · by_cases hxe : x.metadata.messageNumber = e.metadata.messageNumber
      · have hq := hprem x hx hgt hxe
        rw [hasNum_append_mono q e _ hq, hq]
      · rw [hasNum_append_irrel q e _ (fun hh => hxe hh.symm)]
    · have hdec : decide ((wmOf q es.length : Int) < x.metadata.messageNumber) = false := by
        simp [hgt]
      rw [hdec, Bool.and_false, Bool.and_false]
  rcases lt_trichotomy e.metadata.messageNumber ((wmOf q es.length : Int) + 1) with
    hcase | hcase | hcase
  · -- duplicate: e.messageNumber already at or below the watermark
    have hdup : e.metadata.messageNumber ≤
        lastMessageNumberOf s.db e.metadata.channel := by
      rw [hwm_se]
      omega
    rw [submit_duplicate s e hdup]
    have hwm' := hwm_ne (by omega)
    refine ⟨by rw [hwm']; exact hdb, ?_, hbo⟩
    rw [hwm', hbc]
    exact (hfilter_of (fun x hx hgt hxe => absurd (hxe.symm ▸ hgt) (by omega))).symm
  · -- in-order
    have hwlt : wmOf q es.length < es.length := by omega
    have hee : es.get ⟨wmOf q es.length, hwlt⟩ = e := by
      have hiw : (i : Nat) = wmOf q es.length := by omega
      rw [← hie]
      congr 1
      exact Fin.ext hiw.symm
    rcases processMessage_ok_of_valid s.db e hekind hewf with ⟨db1, hp⟩
    have heq := submit_inorder_ok s e db1 (by omega) (by omega) hp
    have hp' : processMessage (applyList [] (es.take (wmOf q es.length))) e = .ok db1 := by
      rw [← hdb]
      exact hp
    have hdb2 : updateRocket db1 e.metadata.channel
        (fun r => { r with lastMessageNumber := e.metadata.messageNumber }) =
        applyList [] (es.take (wmOf q es.length + 1)) := by
      rw [take_succ_get es _ hwlt, hee, applyList_append, applyEvent_ok _ db1 e hp']
    have henum' : e.metadata.messageNumber = ((wmOf q es.length + 1 : Nat) : Int) := by
      omega
    have hwN1 : wmOf q es.length + 1 ≤ es.length := by omega
    have hall' : ∀ j : Nat, 1 ≤ j → j ≤ wmOf q es.length + 1 →
        hasNum (q ++ [e]) (j : Int) = true := by
      intro j hj1 hj2
      by_cases hj : j = wmOf q es.length + 1
      · subst hj
        exact (hasNum_append_iff q e _).mpr (Or.inr henum')
      · exact hasNum_append_mono q e _ (hallq j hj1 (by omega))
    have hbc' : getBuffer s.bufs c =
        es.filter (fun x => hasNum (q ++ [e]) x.metadata.messageNumber &&
          decide (((wmOf q es.length + 1 : Nat) : Int) < x.metadata.messageNumber)) := by
      rw [hbc]
      refine (List.filter_congr ?_).symm
      intro x hx
      rw [Bool.eq_iff_iff]
      simp only [Bool.and_eq_true, decide_eq_true_eq]
      constructor
      · rintro ⟨hxq', hxw'⟩
        refine ⟨?_, by omega⟩
        rcases (hasNum_append_iff q e _).mp hxq' with h | h
        · exact h
        · exfalso
          omega
      · rintro ⟨hxq, hxw⟩
        refine ⟨hasNum_append_mono q e _ hxq, ?_⟩
        rcases hstopq with hN | hfalse
        · omega
        · by_cases hx1 : x.metadata.messageNumber = (wmOf q es.length : Int) + 1
          · rw [hx1] at hxq
            rw [hxq] at hfalse
            cases hfalse
          · omega
    rcases canon_drain c es hgr (q ++ [e])
        ((getBuffer s.bufs c).length + 1) (wmOf q es.length + 1) s.bufs
        (by omega) (by omega) hwN1 hall' hbc' hbo with ⟨bufs', hdrain, hbufs', hbo'⟩
    rw [heq, hdb2, hech, henum', hdrain]
    exact ⟨rfl, hbufs', hbo'⟩
  · -- gap
    have h1 : ¬e.metadata.messageNumber ≤
        lastMessageNumberOf s.db e.metadata.channel := by
      rw [hwm_se]
      omega
    have h2 : e.metadata.messageNumber >
        lastMessageNumberOf s.db e.metadata.channel + 1 := by
      rw [hwm_se]
      omega
    have hwm' := hwm_ne (by omega)
    by_cases hb : (getBuffer s.bufs e.metadata.channel).any
        (fun m => m.metadata.messageNumber = e.metadata.messageNumber)
    · rw [submit_gap_already s e h1 h2 hb]
      have hqe : hasNum q e.metadata.messageNumber = true := by
        rw [hech, hbc, List.any_eq_true] at hb
        rcases hb with ⟨x, hx, hxe⟩
        rcases List.mem_filter.mp hx with ⟨hxes, hpred⟩
        simp only [Bool.and_eq_true, decide_eq_true_eq] at hpred
        simp only [decide_eq_true_eq] at hxe
        rw [← hxe]
        exact hpred.1
      refine ⟨by rw [hwm']; exact hdb, ?_, hbo⟩
      rw [hwm', hbc]
      exact (hfilter_of (fun x hx hgt hxe => by rw [hxe]; exact hqe)).symm
    · rw [submit_gap_insert s e h1 h2 hb]
      have hBsorted : (getBuffer s.bufs c).Pairwise
          (fun a b => msgNum a < msgNum b) := by
        rw [hbc]
        exact (run_sorted c es hgr).sublist (List.filter_sublist es)
      have hBfresh : ∀ x ∈ getBuffer s.bufs c,
          x.metadata.messageNumber ≠ e.metadata.messageNumber := by
        intro x hx hxe
        rw [hech] at hb
        refine hb ?_
        rw [List.any_eq_true]
        exact ⟨x, hx, by simp [hxe]⟩
      refine ⟨by rw [hwm']; exact hdb, ?_, ?_⟩
      · show getBuffer (setBuffer s.bufs e.metadata.channel
          (sortByNumber (getBuffer s.bufs e.metadata.channel ++ [e]))) c = _
        rw [hech, getBuffer_setBuffer, hwm']
        refine eq_of_pairwise_lt_of_mem_iff _ _ ?_ ?_ ?_
        · refine pairwise_lt_of_le_of_nodup _ (sortByNumber_sorted _) ?_
          refine ((sortByNumber_perm _).map msgNum).nodup_iff.mpr ?_
          rw [List.map_append]
          refine List.Nodup.append (nodupNums_of_pairwise_lt _ hBsorted) (by simp) ?_
          intro y hy hy'
          rcases List.mem_map.mp hy with ⟨x, hx, rfl⟩
          rcases List.mem_map.mp hy' with ⟨x', hx', hxx⟩
          rw [List.mem_singleton.mp hx'] at hxx
          exact hBfresh x hx hxx.symm
        · exact (run_sorted c es hgr).sublist (List.filter_sublist es)
        · intro x
          rw [(sortByNumber_perm _).mem_iff, List.mem_append, List.mem_singleton,
            List.mem_filter]
          simp only [Bool.and_eq_true, decide_eq_true_eq]
          constructor
          · rintro (hx | hx2)
            · rw [hbc, List.mem_filter] at hx
              rcases hx with ⟨hxes, hpred⟩
              simp only [Bool.and_eq_true, decide_eq_true_eq] at hpred
              exact ⟨hxes, hasNum_append_mono q e _ hpred.1, hpred.2⟩
            · rw [hx2]
              exact ⟨he, (hasNum_append_iff q e _).mpr (Or.inr rfl), by omega⟩
          · rintro ⟨hxes, hxq', hxw⟩
            rcases (hasNum_append_iff q e _).mp hxq' with h | h
            · refine Or.inl ?_
              rw [hbc, List.mem_filter]
              refine ⟨hxes, ?_⟩
              simp only [Bool.and_eq_true, decide_eq_true_eq]
              exact ⟨h, hxw⟩
            · exact Or.inr (run_unique c es hgr x e hxes he h.symm)
      · intro c' hc'
        show getBuffer (setBuffer s.bufs e.metadata.channel _) c' = []
        rw [hech, getBuffer_setBuffer_ne _ _ _ _ hc']
        exact hbo c' hc'

theorem canon_run (c : String) (es : List RocketMessage) (hgr : goodRun c es) :
    ∀ (r q : List RocketMessage) (s : SysState),
      canonInv c es q s → (∀ m ∈ r, m ∈ es) →
      canonInv c es (q ++ r) (submitList s r) := by
  intro r
  induction r with
  | nil =>
    intro q s hinv _
    simpa using hinv
  | cons e r ih =>
    intro q s hinv hr
    have he : e ∈ es := hr e (List.mem_cons_self e r)
    have hstep := canon_step c es hgr q e he s hinv
    have hrest := ih (q ++ [e]) (UpdateRocketState s e).1 hstep
      (fun m hm => hr m (List.mem_cons_of_mem e hm))
    rw [show q ++ e :: r = (q ++ [e]) ++ r by simp]
    exact hrest

theorem canonInv_init (c : String) (es : List RocketMessage) :
    canonInv c es [] initialState := by
  refine ⟨?_, ?_, fun c' _ => rfl⟩
  · rw [wmOf_nil]
    rfl
  · rw [wmOf_nil]
    have hnil : (es.filter fun x => hasNum [] x.metadata.messageNumber &&
        decide (((0 : Nat) : Int) < x.metadata.messageNumber)) = [] := by
      rw [List.filter_eq_nil_iff]
      intro x hx
      simp [hasNum]
    rw [hnil]
    rfl

/-- Any permutation of a good run drives the empty deployment to the
run's canonical fully-applied database. -/
theorem submitList_canon (c : String) (es : List RocketMessage) (hgr : goodRun c es)
    (p : List RocketMessage) (hperm : p.Perm es) :
    (submitList initialState p).db = applyList [] es := by
  have hmem : ∀ m ∈ p, m ∈ es := fun m hm => hperm.mem_iff.mp hm
  have hrun := canon_run c es hgr p [] initialState (canonInv_init c es) hmem
  rw [List.nil_append] at hrun
  have hwm : wmOf p es.length = es.length := by
    refine wmOf_unique p es.length es.length (le_refl _) ?_ (Or.inr rfl)
    intro j h1 h2
    have hes := run_hasNum_all c es hgr j h1 h2
    rw [hasNum_iff] at hes ⊢
    rcases hes with ⟨m, hm, hmn⟩
    exact ⟨m, hperm.mem_iff.mpr hm, hmn⟩
  rw [hrun.1, hwm, List.take_length]

/-- C3 (counterexample): a contiguous run of two valid events whose
sequence-1 event is SpeedIncreased rather than Launched is not order
independent: submitted in order 1,2 the watermark write matches no row,
Launched(seq 2) gets buffered and no aggregate is ever written
(watermark 0); submitted reversed, the run applies fully (watermark 2,
speed 500). -/
theorem order_independence_counterexample :
    (submitList initialState
        [speedIncMsg "K" 1 100, launchedMsg "K" 2 "Falcon-9" 500 "ARTEMIS"]).db ≠
      (submitList initialState
        [launchedMsg "K" 2 "Falcon-9" 500 "ARTEMIS", speedIncMsg "K" 1 100]).db ∧
    lastMessageNumberOf (submitList initialState
      [speedIncMsg "K" 1 100, launchedMsg "K" 2 "Falcon-9" 500 "ARTEMIS"]).db "K" = 0 ∧
    lastMessageNumberOf (submitList initialState
      [launchedMsg "K" 2 "Falcon-9" 500 "ARTEMIS", speedIncMsg "K" 1 100]).db "K" = 2 := by
  decide

/-- C3 (amended): for a fresh key, for every contiguous run of valid
events with sequence numbers 1..N whose sequence-1 event is a Launched
event, submitting any permutation of the run (one Submit per event,
sequentially) yields the same final aggregate database — hence the same
aggregate state and watermark — as submitting 1,2,...,N in order. -/
theorem order_independence (c : String) (es p : List RocketMessage)
    (hgr : goodRun c es) (hperm : p.Perm es) :
    (submitList initialState p).db = (submitList initialState es).db := by
  rw [submitList_canon c es hgr p hperm,
    submitList_canon c es hgr es (List.Perm.refl es)]

/-- Witness for `order_independence`: the spec's scenario-2 run,
submitted as 3, 1, 2. -/
theorem order_independence_witness :
    goodRun "K" [launchedMsg "K" 1 "Falcon-9" 500 "ARTEMIS",
      speedIncMsg "K" 2 300, speedIncMsg "K" 3 200] ∧
    ([speedIncMsg "K" 3 200, launchedMsg "K" 1 "Falcon-9" 500 "ARTEMIS",
      speedIncMsg "K" 2 300].Perm
      [launchedMsg "K" 1 "Falcon-9" 500 "ARTEMIS",
        speedIncMsg "K" 2 300, speedIncMsg "K" 3 200]) ∧
    (submitList initialState
        [speedIncMsg "K" 3 200, launchedMsg "K" 1 "Falcon-9" 500 "ARTEMIS",
         speedIncMsg "K" 2 300]).db =
      (submitList initialState
        [launchedMsg "K" 1 "Falcon-9" 500 "ARTEMIS",
         speedIncMsg "K" 2 300, speedIncMsg "K" 3 200]).db :=
  ⟨by decide, by decide,
   order_independence "K"
     [launchedMsg "K" 1 "Falcon-9" 500 "ARTEMIS",
      speedIncMsg "K" 2 300, speedIncMsg "K" 3 200]
     [speedIncMsg "K" 3 200, launchedMsg "K" 1 "Falcon-9" 500 "ARTEMIS",
      speedIncMsg "K" 2 300]
     (by decide) (by decide)⟩

end RocketTelemetry
